import Mathlib

/-!
Shallow embedding of the `gameboard` terminal rendering engine
(`src/board.rs`, `src/cell.rs`, `src/cell_grid.rs`, `src/cursor.rs`,
`src/chars.rs`, `src/str_utils.rs`) together with proofs about its
repaint, formatting, dirty-tracking and cursor-overlay behaviour.

Modelling conventions:
* Rust `String` values are modelled as `List Char` (`Str`).
* Strings that the source iterates by extended grapheme cluster
  (`UnicodeSegmentation::grapheme_indices`) are modelled by their cluster
  decomposition `List Str` (`Clusters`); the clusters partition the string,
  so the underlying string is the concatenation of the clusters.
* A Rust panic is modelled by an `Option` result being `none`.
* `usize` arithmetic is modelled by `Nat` (subtraction is truncated; the
  places where the source could underflow are noted at the definitions).
-/

namespace Gameboard

/-- A Rust `String`, at character granularity. -/
abbrev Str := List Char

/-- A string together with its extended-grapheme-cluster decomposition as
produced by `UnicodeSegmentation::grapheme_indices`: the clusters partition
the string, each cluster is one user-visible character (for ASCII text every
character is its own cluster). -/
abbrev Clusters := List Str

/-- `Position(x, y)` from `game.rs`: zero-based cell coordinates,
`x` horizontal (column), `y` vertical (row). -/
structure Position where
  x : Nat
  y : Nat
deriving DecidableEq

/-- `termion::cursor::Goto(x, y)`: the absolute positioning directive
`ESC [ y ; x H`. -/
def gotoSeq (x y : Nat) : Str :=
  '\x1b' :: '[' :: (toString y).data ++ ';' :: (toString x).data ++ ['H']

/-- `termion::style::Reset`: the reset-all-styles directive `ESC [ m`. -/
def resetSeq : Str := ['\x1b', '[', 'm']

/-- An RGB colour (`termion::color::Rgb`). -/
structure Rgb where
  r : Nat
  g : Nat
  b : Nat
deriving DecidableEq

/-- `termion::color::Bg(Rgb(r, g, b))`: the set-background directive
`ESC [ 48 ; 2 ; r ; g ; b m`. -/
def bgSeq (c : Rgb) : Str :=
  '\x1b' :: '[' :: '4' :: '8' :: ';' :: '2' :: ';' ::
    (toString c.r).data ++ ';' :: (toString c.g).data ++ ';' ::
    (toString c.b).data ++ ['m']

/-- Cluster decomposition of a string of ASCII characters (such as the
terminal directives above): every character is its own cluster. -/
def strClusters (s : Str) : Clusters := s.map (fun c => [c])

/-- `Cell` from `cell.rs`.  `Content` carries the payload string's
grapheme-cluster decomposition (see `Clusters`). -/
inductive Cell where
  | Empty : Cell
  | ResourceId (id : Nat) : Cell
  | Char (c : Char) : Cell
  | Content (s : Clusters) : Cell
deriving DecidableEq

/-- `ResourceTable` from `board.rs`: a map from small ids to shared styled
string payloads, modelled as an association list (only indexing is used). -/
abbrev ResourceTable := List (Nat × Clusters)

/-- Resource lookup as performed in `cell.rs`: both a missing table
(`resources` is `None`) and a missing id (`HashMap` indexing `rt[id]`)
panic, modelled by `none`. -/
def rtLookup (resources : Option ResourceTable) (id : Nat) : Option Clusters :=
  match resources with
  | none => none
  | some rt => rt.lookup id

/-- Loop of `Cell::prepare_str` (`cell.rs`).  The Rust loop walks the
grapheme clusters of the content keeping `line_start`, the byte index of the
first byte not yet emitted; emitting `content[line_start..i + ch.len()]` is
the concatenation of the clusters seen since the line started (escape bytes
included), accumulated here in `pending`.  `ch.as_bytes()[0]` is the first
character of the cluster (`ch.head?`). -/
def prepareStrLoop (width x : Nat) :
    Clusters → Str → Nat → Bool → Nat → Nat → Str → Str
  | [], _pending, _chCount, _isCsi, _y, _height, res => res ++ resetSeq
  | ch :: rest, pending, chCount, isCsi, y, height, res =>
    if ch.head? = some '\x1b' then
      prepareStrLoop width x rest (pending ++ ch) chCount true y height res
    else if isCsi ∧ ch.head? = some 'm' then
      prepareStrLoop width x rest (pending ++ ch) chCount false y height res
    else if isCsi then
      prepareStrLoop width x rest (pending ++ ch) chCount isCsi y height res
    else if chCount + 1 = width then
      if height - 1 > 0 then
        prepareStrLoop width x rest [] 0 isCsi (y + 1) (height - 1)
          (res ++ pending ++ ch ++ gotoSeq x (y + 1))
      else
        res ++ pending ++ ch ++ resetSeq
    else
      prepareStrLoop width x rest (pending ++ ch) (chCount + 1) isCsi y height res

/-- `Cell::prepare_str` (`cell.rs`): split the content into lines of `width`
printable clusters, positioning each line inside the `width`×`height`
rectangle whose top-left terminal coordinate is `(x, y)`, and append one
reset-all-styles directive. -/
def prepare_str (content : Clusters) (width height x y : Nat) : Str :=
  prepareStrLoop width x content [] 0 false y height (gotoSeq x y)

/-- `Cell::prepare_str_from_char` (`cell.rs`): fill the rectangle with one
character, one positioning directive per line. -/
def prepare_str_from_char (content : Char) (width : Nat) :
    Nat → Nat → Nat → Str
  | 0, _x, _y => []
  | height + 1, x, y =>
      gotoSeq x y ++ List.replicate width content ++
        prepare_str_from_char content width height x (y + 1)

/-- `Cell::add_value_to_str` (`cell.rs`): the bare value a cell contributes
in the optimized 1×1 scan of `Board::get_updates`. -/
def add_value_to_str (resources : Option ResourceTable) : Cell → Option Str
  | Cell.Empty => some [' ']
  | Cell.Char c => some [c]
  | Cell.ResourceId id => do
      let content ← rtLookup resources id
      some (content.flatten ++ resetSeq)
  | Cell.Content content => some (content.flatten ++ resetSeq)

/-- `Cell::get_content` (`cell.rs`): formatted cell content ready to display. -/
def get_content (cell : Cell) (width height x y : Nat)
    (resources : Option ResourceTable) : Option Str :=
  match cell with
  | Cell.Empty => some (prepare_str_from_char ' ' width height x y)
  | Cell.Char c => some (prepare_str_from_char c width height x y)
  | Cell.ResourceId id => do
      let content ← rtLookup resources id
      some (prepare_str content width height x y)
  | Cell.Content content => some (prepare_str content width height x y)

/-- `Cell::with_bg_color` (`cell.rs`): the highlighted variant of a cell,
always a `Content` cell whose payload starts with a set-background
directive (whose ASCII bytes are one cluster each). -/
def with_bg_color (cell : Cell) (width height : Nat)
    (resources : Option ResourceTable) (bg_color : Rgb) : Option Cell :=
  match cell with
  | Cell.Empty =>
      some (Cell.Content
        (strClusters (bgSeq bg_color) ++ List.replicate (width * height) [' ']))
  | Cell.Char c =>
      some (Cell.Content
        (strClusters (bgSeq bg_color) ++ List.replicate (width * height) [c]))
  | Cell.ResourceId id => do
      let content ← rtLookup resources id
      some (Cell.Content (strClusters (bgSeq bg_color) ++ content))
  | Cell.Content content =>
      some (Cell.Content (strClusters (bgSeq bg_color) ++ content))

/-! ## `CellGrid` (`cell_grid.rs`) -/

/-- `CellGrid` from `cell_grid.rs`.  The `updates` hash set is modelled as a
duplicate-free list; the source's iteration order over the hash set is
unspecified, and the model fixes one. -/
structure CellGrid where
  rows : Nat
  columns : Nat
  cell_width : Nat
  cell_height : Nat
  cells : List Cell
  resources : Option ResourceTable
  update_all : Bool
  updates : List Nat
deriving DecidableEq

/-- `CellGrid::new`. -/
def CellGrid.new (columns rows cell_width cell_height : Nat)
    (resources : Option ResourceTable) : CellGrid :=
  { rows := rows, columns := columns, cell_width := cell_width,
    cell_height := cell_height,
    cells := List.replicate (columns * rows) Cell.Empty,
    resources := resources, update_all := true, updates := [] }

/-- `CellGrid::init_from_vec`. -/
def CellGrid.init_from_vec (g : CellGrid) (cells : List Cell) : CellGrid :=
  { g with cells := cells, update_all := true }

/-- The loop of `CellGrid::init_from_str`: `self.cells[i] = Cell::Char(ch)`
for each code point; the indexed write panics (`none`) out of range. -/
def setCellsFromChars (cells : List Cell) (i : Nat) : List Char → Option (List Cell)
  | [] => some cells
  | ch :: rest =>
      if i < cells.length then
        setCellsFromChars (cells.set i (Cell.Char ch)) (i + 1) rest
      else none

/-- `CellGrid::init_from_str`. -/
def CellGrid.init_from_str (g : CellGrid) (s : List Char) : Option CellGrid := do
  let cells ← setCellsFromChars g.cells 0 s
  some { g with cells := cells, update_all := true }

/-- `CellGrid::has_updates`. -/
def CellGrid.has_updates (g : CellGrid) : Bool :=
  g.update_all || !g.updates.isEmpty

/-- `CellGrid::need_update_all`. -/
def CellGrid.need_update_all (g : CellGrid) : Bool := g.update_all

/-- `CellGrid::update_complete`: clear dirtiness, leave cell values alone. -/
def CellGrid.update_complete (g : CellGrid) : CellGrid :=
  { g with updates := [], update_all := false }

/-- `CellGrid::get_cell_pos`: flat row-major index, with no check that
`pos.x < columns` or `pos.y < rows`. -/
def CellGrid.get_cell_pos (g : CellGrid) (pos : Position) : Nat :=
  pos.y * g.columns + pos.x

/-- Insertion into the `updates` hash set. -/
def insertUpdate (i : Nat) (u : List Nat) : List Nat :=
  if i ∈ u then u else i :: u

/-- `CellGrid::update_cells`: each write `self.cells[pos] = cell.clone()`
panics (`none`) when the flat index is at or past the end of the cell
array; an in-range flat index is written silently. -/
def CellGrid.update_cells (g : CellGrid) :
    List (Cell × Position) → Option CellGrid
  | [] => some g
  | (cell, cell_pos) :: rest =>
      let pos := g.get_cell_pos cell_pos
      if pos < g.cells.length then
        CellGrid.update_cells
          { g with cells := g.cells.set pos cell,
                   updates := insertUpdate pos g.updates } rest
      else none

/-- `CellGrid::update_cell` (cursor-only entry point). -/
def CellGrid.update_cell (g : CellGrid) (cell : Cell) (pos : Position) :
    Option CellGrid :=
  let p := g.get_cell_pos pos
  if p < g.cells.length then
    some { g with cells := g.cells.set p cell,
                  updates := insertUpdate p g.updates }
  else none

/-- `CellGrid::update_cell_bg_color` (cursor-only entry point): replace the
cell at `pos` by its highlighted variant and return the original. -/
def CellGrid.update_cell_bg_color (g : CellGrid) (pos : Position) (bg : Rgb) :
    Option (Cell × CellGrid) :=
  let p := g.get_cell_pos pos
  match g.cells.get? p with
  | none => none
  | some original => do
      let hl ← with_bg_color original g.cell_width g.cell_height g.resources bg
      some (original,
        { g with cells := g.cells.set p hl, updates := insertUpdate p g.updates })

/-- `CellGrid::updated_iter`: the dirty cells with their flat indices (every
index in `updates` is in range, having been checked on insertion). -/
def CellGrid.updated_iter (g : CellGrid) : List (Cell × Nat) :=
  g.updates.map (fun i => (g.cells.getD i Cell.Empty, i))

/-! ## `Cursor` (`cursor.rs`) -/

/-- `Direction` from `cursor.rs`. -/
inductive Direction where
  | Left : Direction
  | Right : Direction
  | Up : Direction
  | Down : Direction
deriving DecidableEq

/-- `KeyHandleResult` from `cursor.rs`. -/
inductive KeyHandleResult where
  | NotHandled : KeyHandleResult
  | Consumed : KeyHandleResult
  | NewPosition (pos : Position) : KeyHandleResult
deriving DecidableEq

/-- `Cursor` from `cursor.rs`.  The injected key→direction function is
external input decoding (it never touches the state); movement is modelled
at the `Direction` level, after `Cursor::handle_key` has resolved the key. -/
structure Cursor where
  original_cell : Cell
  background : Rgb
  position : Position
  wrap_around : Bool
  rows : Nat
  columns : Nat
deriving DecidableEq

/-- `Cursor::new`. -/
def Cursor.new (background : Rgb) (position : Position) (wrap_around : Bool) :
    Cursor :=
  { original_cell := Cell.Empty, background := background, position := position,
    wrap_around := wrap_around, rows := 0, columns := 0 }

/-- `Cursor::init`: remember the grid size and highlight the start position,
keeping its pre-highlight content. -/
def Cursor.init (c : Cursor) (rows columns : Nat) (grid : CellGrid) :
    Option (Cursor × CellGrid) := do
  let (original, grid') ← grid.update_cell_bg_color c.position c.background
  some ({ c with rows := rows, columns := columns, original_cell := original },
        grid')

/-- `Cursor::move_cursor`: restore the remembered original at the old
position, then highlight the new position and remember its original. -/
def Cursor.move_cursor (c : Cursor) (new_pos : Position) (grid : CellGrid) :
    Option (Cursor × CellGrid × KeyHandleResult) := do
  let grid1 ← grid.update_cell c.original_cell c.position
  let (original, grid2) ← grid1.update_cell_bg_color new_pos c.background
  some ({ c with position := new_pos, original_cell := original }, grid2,
        KeyHandleResult.NewPosition new_pos)

/-- `Cursor::left`. -/
def Cursor.left (c : Cursor) (grid : CellGrid) :
    Option (Cursor × CellGrid × KeyHandleResult) :=
  if c.position.x = 0 ∧ ¬c.wrap_around then
    some (c, grid, KeyHandleResult.Consumed)
  else if c.position.x = 0 ∧ c.wrap_around then
    c.move_cursor ⟨c.columns - 1, c.position.y⟩ grid
  else
    c.move_cursor ⟨c.position.x - 1, c.position.y⟩ grid

/-- `Cursor::right`. -/
def Cursor.right (c : Cursor) (grid : CellGrid) :
    Option (Cursor × CellGrid × KeyHandleResult) :=
  if c.position.x = c.columns - 1 ∧ ¬c.wrap_around then
    some (c, grid, KeyHandleResult.Consumed)
  else if c.position.x = c.columns - 1 ∧ c.wrap_around then
    c.move_cursor ⟨0, c.position.y⟩ grid
  else
    c.move_cursor ⟨c.position.x + 1, c.position.y⟩ grid

/-- `Cursor::up`. -/
def Cursor.up (c : Cursor) (grid : CellGrid) :
    Option (Cursor × CellGrid × KeyHandleResult) :=
  if c.position.y = 0 ∧ ¬c.wrap_around then
    some (c, grid, KeyHandleResult.Consumed)
  else if c.position.y = 0 ∧ c.wrap_around then
    c.move_cursor ⟨c.position.x, c.rows - 1⟩ grid
  else
    c.move_cursor ⟨c.position.x, c.position.y - 1⟩ grid

/-- `Cursor::down`. -/
def Cursor.down (c : Cursor) (grid : CellGrid) :
    Option (Cursor × CellGrid × KeyHandleResult) :=
  if c.position.y = c.rows - 1 ∧ ¬c.wrap_around then
    some (c, grid, KeyHandleResult.Consumed)
  else if c.position.y = c.rows - 1 ∧ c.wrap_around then
    c.move_cursor ⟨c.position.x, 0⟩ grid
  else
    c.move_cursor ⟨c.position.x, c.position.y + 1⟩ grid

/-- `Cursor::handle_key` after the injected key→direction mapping resolved
to a direction (an unresolved key yields `NotHandled` without touching the
state). -/
def Cursor.handle_direction (c : Cursor) (d : Direction) (grid : CellGrid) :
    Option (Cursor × CellGrid × KeyHandleResult) :=
  match d with
  | Direction.Left => c.left grid
  | Direction.Right => c.right grid
  | Direction.Up => c.up grid
  | Direction.Down => c.down grid

/-- `Cursor::check_updates`: the source loop re-highlights the current
position and breaks as soon as some update in the batch targets it; the
effect depends only on whether such an update exists. -/
def Cursor.check_updates (c : Cursor) (updates : List (Cell × Position))
    (grid : CellGrid) : Option (Cursor × CellGrid) :=
  if updates.any (fun u => u.2 = c.position) then do
    let (original, grid') ← grid.update_cell_bg_color c.position c.background
    some ({ c with original_cell := original }, grid')
  else
    some (c, grid)

/-! ## `str_utils.rs` -/

/-- `str_utils::get_str_len`: grapheme-cluster count. -/
def get_str_len (cs : Clusters) : Nat := cs.length

/-- `str_utils::get_str_range`: slice of the clusters in `[s, e)`.  `none`
models the panic of the `.expect` when there is no cluster at index `s`.
The Rust `end - start - 1` is `usize` arithmetic: when `e ≤ s` it wraps to a
huge value, `nth` returns `None` and the slice silently extends to the end
of the string. -/
def get_str_range (cs : Clusters) (s e : Nat) : Option Clusters :=
  if s < cs.length then
    some (if s < e then (cs.drop s).take (e - s) else cs.drop s)
  else none

/-! ## `Board` (`board.rs`) -/

/-- `Board` from `board.rs`.  `message_lines` holds the dialog lines, each as
its grapheme-cluster decomposition. -/
structure Board where
  position : Position
  width : Nat
  height : Nat
  rows : Nat
  columns : Nat
  cell_width : Nat
  cell_height : Nat
  cell_borders : Bool
  grid : CellGrid
  resources : Option ResourceTable
  cursor : Option Cursor
  message_lines : Option (List Clusters)
  update_all : Bool
deriving DecidableEq

/-- `Board::new`.  Note that the board's own `update_all` flag starts
`false`; only the grid's `update_all` flag starts raised. -/
def Board.new (width height cell_width cell_height : Nat)
    (cell_borders : Bool) (resources : Option ResourceTable) : Board :=
  let w_borders := if cell_borders then 2 + (width - 1) else 2
  let h_borders := if cell_borders then 2 + (height - 1) else 2
  { position := ⟨1, 1⟩,
    width := width * cell_width + w_borders,
    height := height * cell_height + h_borders,
    rows := height, columns := width,
    cell_width := cell_width, cell_height := cell_height,
    cell_borders := cell_borders,
    grid := CellGrid.new width height cell_width cell_height resources,
    resources := resources, cursor := none, message_lines := none,
    update_all := false }

/-- `Board::add_cursor`. -/
def Board.add_cursor (b : Board) (cursor : Option Cursor) : Option Board :=
  match cursor with
  | none => some b
  | some cur => do
      let (cur', grid') ← cur.init b.rows b.columns b.grid
      some { b with grid := grid', cursor := some cur' }

/-- `Board::init_from_vec`: panics (`none`) iff the vector length differs
from `rows * columns`. -/
def Board.init_from_vec (b : Board) (cells : List Cell)
    (cursor : Option Cursor) : Option Board :=
  if cells.length ≠ b.rows * b.columns then none
  else Board.add_cursor { b with grid := b.grid.init_from_vec cells } cursor

/-- `Board::init_from_str`: panics (`none`) when the code-point count
differs from `rows * columns`, or when `cell_width != 1 && cell_height != 1`
(the source uses `&&`, not `||`, despite its doc comment "Panics if cell
size is not 1x1"). -/
def Board.init_from_str (b : Board) (cells : List Char)
    (cursor : Option Cursor) : Option Board :=
  if cells.length ≠ b.rows * b.columns then none
  else if b.cell_width ≠ 1 ∧ b.cell_height ≠ 1 then none
  else do
    let grid' ← b.grid.init_from_str cells
    Board.add_cursor { b with grid := grid' } cursor

/-- `Board::get_border_char` (`chars.rs` glyphs): border glyph for the
screen-relative character position `(w, h)`, `none` for interior filler. -/
def Board.get_border_char (b : Board) (w h : Nat) : Option Char :=
  let h_cell_border := h % (b.cell_height + 1) = 0
  let v_cell_border := w % (b.cell_width + 1) = 0
  if w = 0 ∧ h = 0 then some '╔'
  else if w = b.width - 1 ∧ h = 0 then some '╗'
  else if w = 0 ∧ h = b.height - 1 then some '╚'
  else if w = b.width - 1 ∧ h = b.height - 1 then some '╝'
  else if h = 0 then
    if b.cell_borders ∧ v_cell_border then some '╤' else some '═'
  else if h = b.height - 1 then
    if b.cell_borders ∧ v_cell_border then some '╧' else some '═'
  else if w = 0 then
    if b.cell_borders ∧ h_cell_border then some '╟' else some '║'
  else if w = b.width - 1 then
    if b.cell_borders ∧ h_cell_border then some '╢' else some '║'
  else if b.cell_borders then
    if h_cell_border ∧ v_cell_border then some '┼'
    else if h_cell_border then some '─'
    else if v_cell_border then some '│'
    else none
  else none

/-- One row of `Board::get_border`: a `None` glyph becomes a space. -/
def Board.border_row (b : Board) (h : Nat) : Str :=
  (List.range b.width).map (fun w => (b.get_border_char w h).getD ' ')

/-- `Board::get_border`: for each screen row a positioning directive
followed by that row's border glyphs. -/
def Board.get_border (b : Board) : Str :=
  (List.range b.height).foldl
    (fun res h => res ++ gotoSeq b.position.x (b.position.y + h) ++ b.border_row h)
    []

/-- `Board::get_cell_top_left`: terminal coordinate of the top-left corner
of the cell with flat index `pos`. -/
def Board.get_cell_top_left (b : Board) (pos : Nat) : Nat × Nat :=
  let start_x := b.position.x + 1
  let start_y := b.position.y + 1
  let step_x := if b.cell_borders then b.cell_width + 1 else b.cell_width
  let step_y := if b.cell_borders then b.cell_height + 1 else b.cell_height
  (start_x + pos % b.columns * step_x, start_y + pos / b.columns * step_y)

/-- The optimized full-repaint branch of `Board::get_updates` (1×1 cells, no
borders): a positioning directive at each row start (`i % columns == 0`),
then each cell's bare value. -/
def Board.optimizedCellsFrom (b : Board) : Nat → List Cell → Option Str
  | _, [] => some []
  | i, cell :: rest => do
      let v ← add_value_to_str b.resources cell
      let tail ← b.optimizedCellsFrom (i + 1) rest
      some ((if i % b.columns = 0 then
               gotoSeq (b.get_cell_top_left i).1 (b.get_cell_top_left i).2
             else []) ++ v ++ tail)

/-- The optimized full-repaint output over the whole grid. -/
def Board.optimizedCellsOut (b : Board) : Option Str :=
  b.optimizedCellsFrom 0 b.grid.cells

/-- The general full-repaint branch of `Board::get_updates`: each cell's
formatted content at its mapped coordinates. -/
def Board.generalCellsFrom (b : Board) : Nat → List Cell → Option Str
  | _, [] => some []
  | i, cell :: rest => do
      let v ← get_content cell b.cell_width b.cell_height
                (b.get_cell_top_left i).1 (b.get_cell_top_left i).2 b.resources
      let tail ← b.generalCellsFrom (i + 1) rest
      some (v ++ tail)

/-- The general full-repaint output over the whole grid. -/
def Board.generalCellsOut (b : Board) : Option Str :=
  b.generalCellsFrom 0 b.grid.cells

/-- The sparse branch of `Board::get_updates`: only the dirty cells'
content at their mapped coordinates. -/
def Board.dirtyCellsOut (b : Board) : Option Str :=
  b.grid.updated_iter.foldlM
    (fun res ci => do
      let v ← get_content ci.1 b.cell_width b.cell_height
                (b.get_cell_top_left ci.2).1 (b.get_cell_top_left ci.2).2
                b.resources
      some (res ++ v))
    []

/-- Spaces, as clusters. -/
def spacesClusters (n : Nat) : Clusters := List.replicate n [' ']

/-- Rust `format!` centre padding `{:^w}` of a string of `l` clusters:
`(w - l) / 2` spaces on the left, the rest on the right. -/
def padCenter (s : Clusters) (w : Nat) : Clusters :=
  spacesClusters ((w - s.length) / 2) ++ s ++
    spacesClusters (w - s.length - (w - s.length) / 2)

/-- Rust `format!` right alignment `{:>w}`. -/
def padToRight (s : Clusters) (w : Nat) : Clusters :=
  spacesClusters (w - s.length) ++ s

/-- Rust `format!` left alignment `{:w}`. -/
def padToLeft (s : Clusters) (w : Nat) : Clusters :=
  s ++ spacesClusters (w - s.length)

/-- `TEXT_ALIGN_CENTER`, as clusters. -/
def textAlignCenter : Clusters := [['|'], ['^'], ['|']]

/-- `TEXT_ALIGN_RIGHT`, as clusters. -/
def textAlignRight : Clusters := [['|'], ['>'], ['|']]

/-- One body line of the message dialog (`Board::get_message_dialog`):
alignment marker handling, padding or truncation to interior width `w4`
(`dlg_w - 4`). -/
def dialogLine (line : Clusters) (w4 : Nat) : Option Clusters :=
  if textAlignCenter.isPrefixOf line then
    let ll := line.drop 3
    if get_str_len ll < w4 then some (padCenter ll w4) else get_str_range ll 0 w4
  else if textAlignRight.isPrefixOf line then
    let ll := line.drop 3
    if get_str_len ll < w4 then some (padToRight ll w4) else get_str_range ll 0 w4
  else
    if get_str_len line < w4 then some (padToLeft line w4)
    else get_str_range line 0 w4

/-- Body loop of `Board::get_message_dialog`: each line framed by the
vertical border and one margin space, followed by a positioning directive
to the next dialog row. -/
def dialogBody (x w4 : Nat) : List Clusters → Nat → Option Str
  | [], _y => some []
  | line :: rest, y => do
      let s ← dialogLine line w4
      let tail ← dialogBody x w4 rest (y + 1)
      some (['║', ' '] ++ s.flatten ++ [' ', '║'] ++ gotoSeq x (y + 1) ++ tail)

/-- `Board::get_message_dialog`: `some none` when no dialog is shown,
`none` when the `.expect` on an empty line list panics. -/
def Board.get_message_dialog (b : Board) : Option (Option Str) :=
  match b.message_lines with
  | none => some none
  | some msg_lines =>
    match (msg_lines.map get_str_len).max? with
    | none => none
    | some line_max_len =>
      let dlg_w := min line_max_len (b.width - 8) + 4
      let dlg_h := min msg_lines.length (b.height - 8) + 4
      let x := b.position.x + (b.width - dlg_w) / 2
      let y := b.position.y + (b.height - dlg_h) / 2
      let top := gotoSeq x y ++ ['╔'] ++ List.replicate (dlg_w - 2) '═' ++ ['╗'] ++
        gotoSeq x (y + 1) ++ ['║'] ++ List.replicate (dlg_w - 2) ' ' ++ ['║'] ++
        gotoSeq x (y + 2)
      match dialogBody x (dlg_w - 4) (msg_lines.take (dlg_h - 4)) (y + 2) with
      | none => none
      | some body =>
        let bottom := ['║'] ++ List.replicate (dlg_w - 2) ' ' ++ ['║'] ++
          gotoSeq x (y + dlg_h - 1) ++
          ['╚'] ++ List.replicate (dlg_w - 2) '═' ++ ['╝']
        some (some (top ++ body ++ bottom))

/-- Cell-output selection of `Board::get_updates`: the optimized full scan
(update-all with 1×1 cells and no borders), the general full scan, or the
sparse dirty scan. -/
def Board.cellsOut (b : Board) : Option Str :=
  let upd_all := b.update_all || b.grid.need_update_all
  if upd_all ∧ b.cell_width = 1 ∧ b.cell_height = 1 ∧ b.cell_borders = false then
    b.optimizedCellsOut
  else if upd_all then
    b.generalCellsOut
  else
    b.dirtyCellsOut

/-- `Board::get_updates`: the repaint decision.  Dialog first; then "nothing
to do"; then the border (only when the board's own `update_all` flag is
raised) followed by the selected cell output; full and sparse repaints
clear all dirtiness. -/
def Board.get_updates (b : Board) : Option (Option Str × Board) := do
  let msg_dlg ← b.get_message_dialog
  if msg_dlg.isSome then
    return (msg_dlg, b)
  else if b.update_all = false ∧ b.grid.has_updates = false then
    return (none, b)
  else
    let border := if b.update_all then b.get_border else []
    let cells ← b.cellsOut
    return (some (border ++ cells),
            { b with grid := b.grid.update_complete, update_all := false })

/-- `Board::update_cells`: fatal (`none`) while the message dialog is shown;
otherwise apply the batch to the grid and notify the cursor, if any. -/
def Board.update_cells (b : Board) (updates : List (Cell × Position)) :
    Option Board :=
  if b.message_lines.isSome then none
  else do
    let grid' ← b.grid.update_cells updates
    match b.cursor with
    | none => some { b with grid := grid' }
    | some cur => do
        let (cur', grid'') ← cur.check_updates updates grid'
        some { b with grid := grid'', cursor := some cur' }

/-- `Board::show_message`. -/
def Board.show_message (b : Board) (lines : List Clusters) : Board :=
  { b with message_lines := some lines }

/-- `Board::hide_message`: clearing the dialog raises the board's
structural-invalidation flag. -/
def Board.hide_message (b : Board) : Board :=
  { b with message_lines := none, update_all := true }

/-! ## The escape-sequence automaton of `prepare_str` -/

/-- Printable-cluster count of a cluster list, by the escape automaton of
`prepare_str`'s loop: escape-sequence bytes (from the `ESC` byte through the
`m` terminator) contribute nothing. -/
def printableCount : Bool → Clusters → Nat
  | _, [] => 0
  | isCsi, ch :: rest =>
    if ch.head? = some '\x1b' then printableCount true rest
    else if isCsi ∧ ch.head? = some 'm' then printableCount false rest
    else if isCsi then printableCount isCsi rest
    else printableCount false rest + 1

/-- Run of the escape automaton over clusters none of which is printable:
the final in-escape flag, or `none` if some cluster would be counted. -/
def escRun : Bool → Clusters → Option Bool
  | isCsi, [] => some isCsi
  | isCsi, ch :: rest =>
    if ch.head? = some '\x1b' then escRun true rest
    else if isCsi ∧ ch.head? = some 'm' then escRun false rest
    else if isCsi then escRun isCsi rest
    else none

/-- A styled single-character payload: escape sequences followed by exactly
one printable grapheme cluster. -/
def SingleGrapheme (cs : Clusters) : Prop :=
  ∃ pre g, cs = pre ++ [g] ∧ escRun false pre = some false ∧
    g ≠ [] ∧ g.head? ≠ some '\x1b'

/-- Per-cell payload condition for the optimized/general full-repaint
comparison: every `Content`/`ResourceId` payload is a styled single
character (so that the 1×1 truncation of the general path is lossless). -/
def CellOk (resources : Option ResourceTable) : Cell → Prop
  | Cell.Content s => SingleGrapheme s
  | Cell.ResourceId id =>
      ∃ s, rtLookup resources id = some s ∧ SingleGrapheme s
  | _ => True

/-- Specification-side rendering of a full repaint: one positioning
directive per row of the rectangle, followed by that row's text. -/
def renderRows (x : Nat) : List Clusters → Nat → Str
  | [], _y => []
  | r :: rs, y => gotoSeq x y ++ r.flatten ++ renderRows x rs (y + 1)

/-- The first `n` lines of `w` clusters each. -/
def chunksN (w : Nat) : Nat → Clusters → List Clusters
  | 0, _ => []
  | n + 1, cs => cs.take w :: chunksN w n (cs.drop w)

theorem chunksN_length (w : Nat) : ∀ (n : Nat) (cs : Clusters),
    (chunksN w n cs).length = n := by
  intro n
  induction n with
  | zero => intro cs; rfl
  | succ n ih => intro cs; simp [chunksN, ih]

theorem chunksN_flatten (w : Nat) : ∀ (n : Nat) (cs : Clusters),
    cs.length = w * n → (chunksN w n cs).flatten = cs := by
  intro n
  induction n with
  | zero =>
      intro cs h
      simp [Nat.mul_zero] at h
      simp [chunksN, h]
  | succ n ih =>
      intro cs h
      have hd : (cs.drop w).length = w * n := by
        simp [List.length_drop, h, Nat.mul_succ]
      simp [chunksN, ih (cs.drop w) hd]

theorem chunksN_row_length (w : Nat) : ∀ (n : Nat) (cs : Clusters),
    cs.length = w * n → ∀ r ∈ chunksN w n cs, r.length = w := by
  intro n
  induction n with
  | zero => intro cs _ r hr; simp [chunksN] at hr
  | succ n ih =>
      intro cs h r hr
      simp only [chunksN, List.mem_cons] at hr
      rcases hr with rfl | hr
      · simp [List.length_take, h, Nat.mul_succ]
      · exact ih (cs.drop w) (by simp [List.length_drop, h, Nat.mul_succ]) r hr

theorem chunksN_row_mem (w : Nat) : ∀ (n : Nat) (cs : Clusters),
    ∀ r ∈ chunksN w n cs, ∀ c ∈ r, c ∈ cs := by
  intro n
  induction n with
  | zero => intro cs r hr; simp [chunksN] at hr
  | succ n ih =>
      intro cs r hr c hc
      simp only [chunksN, List.mem_cons] at hr
      rcases hr with rfl | hr
      · exact List.take_subset w cs hc
      · exact List.drop_subset w cs (ih (cs.drop w) r hr c hc)

/-- Processing non-printable (escape) clusters only moves them into the
pending slice and updates the in-escape flag. -/
theorem prepareStrLoop_esc (w x : Nat) :
    ∀ (pre : Clusters) (isCsi isCsi' : Bool), escRun isCsi pre = some isCsi' →
    ∀ (rest : Clusters) (pending : Str) (cnt : Nat) (y h : Nat) (res : Str),
    prepareStrLoop w x (pre ++ rest) pending cnt isCsi y h res =
      prepareStrLoop w x rest (pending ++ pre.flatten) cnt isCsi' y h res := by
  intro pre
  induction pre with
  | nil =>
      intro isCsi isCsi' h rest pending cnt y hh res
      simp [escRun] at h
      simp [h]
  | cons ch pre ih =>
      intro isCsi isCsi' h rest pending cnt y hh res
      by_cases h1 : ch.head? = some '\x1b'
      · simp [escRun, h1] at h
        simp [prepareStrLoop, h1, ih true isCsi' h, List.append_assoc]
      · cases isCsi with
        | false => simp [escRun, h1] at h
        | true =>
            by_cases h2 : ch.head? = some 'm'
            · simp [escRun, h1, h2] at h
              simp [prepareStrLoop, h1, h2, ih false isCsi' h, List.append_assoc]
            · simp [escRun, h1, h2] at h
              simp [prepareStrLoop, h1, h2, ih true isCsi' h, List.append_assoc]

/-- A remainder whose printable clusters cannot complete the current line
contributes nothing to the output: the trailing partial line is dropped. -/
theorem prepareStrLoop_partial (w x : Nat) :
    ∀ (cs : Clusters) (pending : Str) (cnt : Nat) (isCsi : Bool)
      (y h : Nat) (res : Str),
    cnt + printableCount isCsi cs < w →
    prepareStrLoop w x cs pending cnt isCsi y h res = res ++ resetSeq := by
  intro cs
  induction cs with
  | nil => intro pending cnt isCsi y h res _; rfl
  | cons ch rest ih =>
      intro pending cnt isCsi y h res hlt
      by_cases h1 : ch.head? = some '\x1b'
      · simp only [printableCount, if_pos h1] at hlt
        simp [prepareStrLoop, h1, ih _ _ _ _ _ _ hlt]
      · cases isCsi with
        | true =>
            by_cases h2 : ch.head? = some 'm'
            · simp [printableCount, h1, h2] at hlt
              simp [prepareStrLoop, h1, h2, ih _ _ _ _ _ _ hlt]
            · simp [printableCount, h1, h2] at hlt
              simp [prepareStrLoop, h1, h2, ih _ _ _ _ _ _ hlt]
        | false =>
            simp [printableCount, h1] at hlt
            have hne : ¬cnt + 1 = w := by omega
            simp [prepareStrLoop, h1, hne]
            exact ih _ _ _ _ _ _ (by omega)

/-- One-step unfolding of `prepareStrLoop` on a cons cell. -/
theorem prepareStrLoop_cons (w x : Nat) (ch : Str) (rest : Clusters)
    (pending : Str) (cnt : Nat) (isCsi : Bool) (y h : Nat) (res : Str) :
    prepareStrLoop w x (ch :: rest) pending cnt isCsi y h res =
      if ch.head? = some '\x1b' then
        prepareStrLoop w x rest (pending ++ ch) cnt true y h res
      else if isCsi ∧ ch.head? = some 'm' then
        prepareStrLoop w x rest (pending ++ ch) cnt false y h res
      else if isCsi then
        prepareStrLoop w x rest (pending ++ ch) cnt isCsi y h res
      else if cnt + 1 = w then
        if h - 1 > 0 then
          prepareStrLoop w x rest [] 0 isCsi (y + 1) (h - 1)
            (res ++ pending ++ ch ++ gotoSeq x (y + 1))
        else res ++ pending ++ ch ++ resetSeq
      else
        prepareStrLoop w x rest (pending ++ ch) (cnt + 1) isCsi y h res := rfl

/-- Consuming exactly enough plain clusters to complete the current line:
the line (pending escape bytes included) is emitted, followed either by a
positioning directive to the next line or, when the height budget is
exhausted, by the trailing reset. -/
theorem prepareStrLoop_line (w x : Nat) :
    ∀ (cs : Clusters), (∀ c ∈ cs, c.head? ≠ some '\x1b') → cs ≠ [] →
    ∀ (rest : Clusters) (pending : Str) (cnt : Nat) (y h : Nat) (res : Str),
    cnt + cs.length = w →
    prepareStrLoop w x (cs ++ rest) pending cnt false y h res =
      if h - 1 > 0 then
        prepareStrLoop w x rest [] 0 false (y + 1) (h - 1)
          (res ++ pending ++ cs.flatten ++ gotoSeq x (y + 1))
      else
        res ++ pending ++ cs.flatten ++ resetSeq := by
  intro cs
  induction cs with
  | nil => intro _ hne; exact absurd rfl hne
  | cons ch cs ih =>
      intro hplain _ rest pending cnt y h res hlen
      have h1 : ch.head? ≠ some '\x1b' := hplain ch (List.mem_cons_self ch cs)
      rcases cs with _ | ⟨ch', cs'⟩
      · have hw : cnt + 1 = w := by simpa using hlen
        simp [prepareStrLoop, h1, hw, List.append_assoc]
      · have hne : ¬cnt + 1 = w := by
          simp only [List.length_cons] at hlen; omega
        have hlen' : (cnt + 1) + (ch' :: cs').length = w := by
          simp only [List.length_cons] at hlen ⊢; omega
        have hplain' : ∀ c ∈ ch' :: cs', c.head? ≠ some '\x1b' := by
          intro c hc; exact hplain c (List.mem_cons_of_mem ch hc)
        rw [List.cons_append, prepareStrLoop_cons, if_neg h1,
          if_neg (by simp : ¬(false = true ∧ List.head? ch = some 'm')),
          if_neg (by simp : ¬(false = true)), if_neg hne,
          ih hplain' (by simp) rest (pending ++ ch) (cnt + 1) y h res hlen']
        simp [List.append_assoc]

/-- Consuming a sequence of full plain lines from a line start renders one
positioning directive per line followed by that line's text, with the
trailing reset after the last line. -/
theorem prepareStrLoop_rows (w x : Nat) :
    ∀ (rs : List Clusters), rs ≠ [] →
    (∀ r ∈ rs, r.length = w ∧ ∀ c ∈ r, c.head? ≠ some '\x1b') →
    0 < w →
    ∀ (y : Nat) (res : Str),
    prepareStrLoop w x rs.flatten [] 0 false y rs.length (res ++ gotoSeq x y) =
      res ++ renderRows x rs y ++ resetSeq := by
  intro rs
  induction rs with
  | nil => intro hne; exact absurd rfl hne
  | cons r rs ih =>
      intro _ hrows hw y res
      obtain ⟨hrl, hrplain⟩ := hrows r (List.mem_cons_self r rs)
      have hrne : r ≠ [] := by
        intro hr; rw [hr] at hrl; simp at hrl; omega
      rcases rs with _ | ⟨r', rs'⟩
      · have hline := prepareStrLoop_line w x r hrplain hrne [] [] 0 y 1
          (res ++ gotoSeq x y) (by simpa using hrl)
        simp only [List.flatten_cons, List.flatten_nil, List.append_nil,
          List.length_cons, List.length_nil] at hline ⊢
        rw [hline]
        simp [renderRows, List.append_assoc]
      · have hline := prepareStrLoop_line w x r hrplain hrne
          (r' :: rs').flatten [] 0 y ((r' :: rs').length + 1)
          (res ++ gotoSeq x y) (by simpa using hrl)
        simp only [List.flatten_cons, List.length_cons] at hline ⊢
        rw [hline]
        rw [if_pos (by omega : (rs'.length + 1 + 1) - 1 > 0)]
        have harg : rs'.length + 1 + 1 - 1 = rs'.length + 1 := by omega
        rw [harg]
        have ihs := ih (by simp) (fun rr hrr => hrows rr (List.mem_cons_of_mem r hrr))
          hw (y + 1) (res ++ gotoSeq x y ++ r.flatten)
        simp only [List.length_cons, List.flatten_cons] at ihs
        have hres : res ++ gotoSeq x y ++ [] ++ r.flatten ++ gotoSeq x (y + 1) =
            res ++ gotoSeq x y ++ r.flatten ++ gotoSeq x (y + 1) := by
          simp
        rw [hres, ihs]
        simp [renderRows, List.append_assoc]

/-- The escape-sequence demo payload `"\x1b[31mAB\x1b[0mCD"`, as grapheme
clusters (every byte is ASCII, so every byte is its own cluster). -/
def escDemo : Clusters :=
  strClusters ['\x1b','[','3','1','m','A','B','\x1b','[','0','m','C','D']

/-- **C6.** Rendering `"\x1b[31mAB\x1b[0mCD"` into a width-2 rectangle of
height at least 2 emits `AB` on line one and `CD` on line two; the escape
bytes are copied through verbatim (just before their line's printable text)
and never count toward the width budget.  When the height exceeds 2, the
only further output is the positioning directive for the third line. -/
theorem escape_skipping_width2 (h x y : Nat) (hh : 2 ≤ h) :
    prepare_str escDemo 2 h x y =
      gotoSeq x y ++ ['\x1b','[','3','1','m'] ++ ['A','B'] ++
      gotoSeq x (y + 1) ++ ['\x1b','[','0','m'] ++ ['C','D'] ++
      (if h = 2 then [] else gotoSeq x (y + 2)) ++ resetSeq := by
  obtain ⟨k, rfl⟩ : ∃ k, h = 2 + k := ⟨h - 2, by omega⟩
  rcases k with _ | k
  · simp [prepare_str, prepareStrLoop, escDemo, strClusters]
  · simp [prepare_str, prepareStrLoop, escDemo, strClusters]

/-- **C6 witness.** The property instantiated at height 2 and origin (10, 5). -/
theorem escape_skipping_width2_witness :
    prepare_str escDemo 2 2 10 5 =
      gotoSeq 10 5 ++ ['\x1b','[','3','1','m'] ++ ['A','B'] ++
      gotoSeq 10 6 ++ ['\x1b','[','0','m'] ++ ['C','D'] ++
      (if 2 = 2 then [] else gotoSeq 10 7) ++ resetSeq :=
  escape_skipping_width2 2 10 5 (by decide)

/-- **C7.** A plain (escape-free) content of exactly `width * height`
grapheme clusters renders as `height` positioning directives, each followed
by exactly `width` characters (that row's chunk of the content), terminated
by exactly one reset directive. -/
theorem plain_full_rectangle (cs : Clusters) (w h x y : Nat)
    (hw : 0 < w) (hh : 0 < h) (hlen : cs.length = w * h)
    (hplain : ∀ c ∈ cs, c ≠ [] ∧ c.head? ≠ some '\x1b') :
    prepare_str cs w h x y = renderRows x (chunksN w h cs) y ++ resetSeq ∧
    (chunksN w h cs).length = h ∧
    (∀ r ∈ chunksN w h cs, r.length = w) ∧
    (chunksN w h cs).flatten = cs := by
  have hflat := chunksN_flatten w h cs hlen
  have hrl := chunksN_row_length w h cs hlen
  have hne : chunksN w h cs ≠ [] := by
    intro he
    have hl := chunksN_length w h cs
    rw [he] at hl
    simp at hl
    omega
  have hrows : ∀ r ∈ chunksN w h cs, r.length = w ∧
      ∀ c ∈ r, c.head? ≠ some '\x1b' := by
    intro r hr
    exact ⟨hrl r hr,
      fun c hc => (hplain c (chunksN_row_mem w h cs r hr c hc)).2⟩
  have hmain := prepareStrLoop_rows w x (chunksN w h cs) hne hrows hw y []
  rw [chunksN_length w h cs, hflat] at hmain
  refine ⟨?_, chunksN_length w h cs, hrl, hflat⟩
  unfold prepare_str
  simpa using hmain

/-- **C7 witness.** The property instantiated with the 2×2 content
`"ABCD"` at origin (1, 1). -/
theorem plain_full_rectangle_witness :
    prepare_str (strClusters ['A','B','C','D']) 2 2 1 1 =
      renderRows 1 (chunksN 2 2 (strClusters ['A','B','C','D'])) 1 ++ resetSeq ∧
    (chunksN 2 2 (strClusters ['A','B','C','D'])).length = 2 ∧
    (∀ r ∈ chunksN 2 2 (strClusters ['A','B','C','D']), r.length = 2) ∧
    (chunksN 2 2 (strClusters ['A','B','C','D'])).flatten =
      strClusters ['A','B','C','D'] :=
  plain_full_rectangle (strClusters ['A','B','C','D']) 2 2 1 1
    (by decide) (by decide) (by decide) (by decide)

/-- **C10.** Printable payload text is emitted only in complete width-sized
lines.  First part: a payload with fewer printable clusters than `width`
(in particular any plain payload shorter than `width`) renders as the
single positioning directive followed directly by the reset directive, with
none of the payload's characters in the output.  Second part: from any
intermediate state of the formatting loop, a remainder whose printable
clusters cannot complete the current line (the trailing partial line of any
payload whose printable count is not a multiple of `width`) contributes
nothing to the output beyond the trailing reset. -/
theorem partial_line_dropped (w h x y : Nat) (cs : Clusters) :
    (printableCount false cs < w →
      prepare_str cs w h x y = gotoSeq x y ++ resetSeq) ∧
    (∀ (pending : Str) (cnt : Nat) (isCsi : Bool) (y' h' : Nat) (res : Str),
      cnt + printableCount isCsi cs < w →
      prepareStrLoop w x cs pending cnt isCsi y' h' res = res ++ resetSeq) := by
  constructor
  · intro hlt
    unfold prepare_str
    exact prepareStrLoop_partial w x cs [] 0 false y h (gotoSeq x y)
      (by simpa using hlt)
  · intro pending cnt isCsi y' h' res hlt
    exact prepareStrLoop_partial w x cs pending cnt isCsi y' h' res hlt

/-- **C10 witness.** The plain payload `"AB"` in a width-3 rectangle:
one positioning directive, then the reset, none of the payload emitted. -/
theorem partial_line_dropped_witness :
    prepare_str (strClusters ['A','B']) 3 1 1 1 = gotoSeq 1 1 ++ resetSeq :=
  (partial_line_dropped 3 1 1 1 (strClusters ['A','B'])).1 (by decide)

/-! ## Concrete boards used in witnesses and counterexamples -/

/-- A fresh 2×2 board of 1×1 cells, bulk-initialized from a vector. -/
def bInit : Board :=
  (Board.init_from_vec (Board.new 2 2 1 1 false none)
    [Cell.Empty, Cell.Char 'x', Cell.Empty, Cell.Char 'o'] none).getD
    (Board.new 2 2 1 1 false none)

/-- `bInit` after `hide_message`: the structural-invalidation flag raised. -/
def bHidden : Board := bInit.hide_message

/-- A 9×9 board showing the one-line dialog `"hi"`. -/
def bDlg : Board :=
  Board.show_message
    ((Board.init_from_str (Board.new 9 9 1 1 false none)
      (List.replicate 81 '-') none).getD (Board.new 9 9 1 1 false none))
    [[['h'], ['i']]]

/-- `bInit` after its first repaint query (a clean board). -/
def bClean : Board :=
  match bInit.get_updates with
  | some (_, b) => b
  | none => bInit

/-- `bClean` with one dirty cell. -/
def bDirty : Board :=
  (bClean.update_cells [(Cell.Char 'z', ⟨0, 0⟩)]).getD bClean

/-- The board of the `init_from_str` cell-size check: 2×2 cells of size 2×1. -/
def bC4 : Board := Board.new 2 2 2 1 false none

/-- A 3-column, 3-row grid of empty 1×1 cells. -/
def g33 : CellGrid := CellGrid.new 3 3 1 1 none

/-- **C4 (code bug).** `Board::init_from_str` guards the cell size with
`cell_width != 1 && cell_height != 1`: a board whose cells are 2×1 — not
1×1 — is accepted without a panic, contradicting the claim and the
function's own doc comment ("Panics if cell size is not 1x1").  Only when
both dimensions differ from 1 does the call panic, and a wrong code-point
count always panics. -/
theorem init_from_str_cell_size_bug :
    bC4.cell_width = 2 ∧ bC4.cell_height = 1 ∧
    (bC4.init_from_str ['a', 'b', 'c', 'd'] none).isSome = true ∧
    (Board.new 2 2 2 2 false none).init_from_str ['a', 'b', 'c', 'd'] none = none ∧
    (Board.new 2 2 1 1 false none).init_from_str ['a', 'b', 'c'] none = none := by
  decide

/-- **C5.** A targeted cell update is fatal exactly while the dialog is
shown: when `message_lines` is set the update panics, and whenever an
update is accepted no dialog was shown. -/
theorem update_cells_dialog_fatal (b : Board) (us : List (Cell × Position)) :
    (b.message_lines.isSome = true → b.update_cells us = none) ∧
    ((b.update_cells us).isSome = true → b.message_lines = none) := by
  constructor
  · intro h
    simp [Board.update_cells, h]
  · intro h
    rcases hm : b.message_lines with _ | v
    · rfl
    · simp [Board.update_cells, hm] at h

/-- **C5 witness.** On the dialog-showing board `bDlg`, an update panics. -/
theorem update_cells_dialog_fatal_witness :
    bDlg.message_lines.isSome = true ∧
    bDlg.update_cells [(Cell.Char 'q', ⟨0, 0⟩)] = none :=
  ⟨rfl, (update_cells_dialog_fatal bDlg [(Cell.Char 'q', ⟨0, 0⟩)]).1 rfl⟩

/-- **C9.** `CellGrid::get_cell_pos` maps `Position(x, y)` to the flat
index `y * columns + x` with no check that `x < columns` or `y < rows`: a
targeted update at any position whose flat index lies inside the cell
array succeeds silently, writing the cell at that flat index (for
out-of-row `x` this is a cell in a different row than `y`); it panics
exactly when the flat index is at or past the array's end. -/
theorem update_cells_unchecked_flat_index (g : CellGrid) (c : Cell) (x y : Nat) :
    g.get_cell_pos ⟨x, y⟩ = y * g.columns + x ∧
    (y * g.columns + x < g.cells.length →
      g.update_cells [(c, ⟨x, y⟩)] =
        some { g with cells := g.cells.set (y * g.columns + x) c,
                      updates := insertUpdate (y * g.columns + x) g.updates }) ∧
    (g.cells.length ≤ y * g.columns + x →
      g.update_cells [(c, ⟨x, y⟩)] = none) := by
  refine ⟨rfl, ?_, ?_⟩
  · intro h
    simp [CellGrid.update_cells, CellGrid.get_cell_pos, h]
  · intro h
    simp [CellGrid.update_cells, CellGrid.get_cell_pos,
      show ¬(y * g.columns + x < g.cells.length) by omega]

/-- **C9 witness.** On a 3×3 grid, the out-of-row position `(5, 0)` has
flat index 5, inside the 9-cell array: the update is accepted silently and
writes flat index 5 (which lies in row 1, not row 0); position `(9, 0)`
has flat index 9, past the array's end, and panics. -/
theorem update_cells_unchecked_flat_index_witness :
    g33.get_cell_pos ⟨5, 0⟩ = 5 ∧
    g33.update_cells [(Cell.Char 'X', ⟨5, 0⟩)] =
      some { g33 with cells := g33.cells.set 5 (Cell.Char 'X'),
                      updates := insertUpdate 5 g33.updates } ∧
    g33.update_cells [(Cell.Char 'X', ⟨9, 0⟩)] = none := by
  refine ⟨(update_cells_unchecked_flat_index g33 (Cell.Char 'X') 5 0).1, ?_, ?_⟩
  · exact (update_cells_unchecked_flat_index g33 (Cell.Char 'X') 5 0).2.1 (by decide)
  · exact (update_cells_unchecked_flat_index g33 (Cell.Char 'X') 9 0).2.2 (by decide)

/-- With no dialog shown, `get_message_dialog` reports "no dialog". -/
theorem get_message_dialog_none (b : Board) (hmsg : b.message_lines = none) :
    b.get_message_dialog = some none := by
  simp [Board.get_message_dialog, hmsg]

/-- A clean board (no dialog, no raised flag, no dirty cells) yields no
output and an unchanged state. -/
theorem get_updates_clean (b : Board) (hmsg : b.message_lines = none)
    (hu : b.update_all = false) (hg : b.grid.has_updates = false) :
    b.get_updates = some (none, b) := by
  unfold Board.get_updates
  rw [get_message_dialog_none b hmsg]
  simp [hu, hg]

/-- Any repaint query that returns output while no dialog is shown does so
through the cell-output selection, prefixes the border exactly when the
board flag was raised, and leaves the completed (all-clean) state. -/
theorem get_updates_success (b : Board) (out : Str) (b' : Board)
    (hmsg : b.message_lines = none)
    (h : b.get_updates = some (some out, b')) :
    (∃ cells, b.cellsOut = some cells ∧
      out = (if b.update_all then b.get_border else []) ++ cells) ∧
    b' = { b with grid := b.grid.update_complete, update_all := false } := by
  unfold Board.get_updates at h
  rw [get_message_dialog_none b hmsg] at h
  by_cases hq : b.update_all = false ∧ b.grid.has_updates = false
  · simp [hq] at h
  · rcases hcells : b.cellsOut with _ | cells
    · simp [hq, hcells] at h
    · simp [hq, hcells] at h
      exact ⟨⟨cells, rfl, h.1.symm⟩, h.2.symm⟩

/-- **C8 (amended).** After any repaint query that returns output while no
dialog is shown, the grid reports no dirty cells and a second repaint query
with no intervening mutation returns no output (`none`) with the state
unchanged: repaint completion is idempotent — outside of the dialog, which
is redrawn on every query. -/
theorem repaint_completion_idempotent (b : Board) (out : Str) (b' : Board)
    (hmsg : b.message_lines = none)
    (h : b.get_updates = some (some out, b')) :
    b'.grid.has_updates = false ∧ b'.update_all = false ∧
    b'.get_updates = some (none, b') := by
  obtain ⟨-, hb'⟩ := get_updates_success b out b' hmsg h
  subst hb'
  exact ⟨rfl, rfl, get_updates_clean _ hmsg rfl rfl⟩

set_option maxRecDepth 4000 in
/-- **C8 counterexample.** The claim fails as stated for dialog queries: on
`bDlg` the repaint query returns output, yet the grid still reports dirty
state afterwards, and a second query with no intervening mutation again
returns output rather than `none`. -/
theorem dialog_repaint_not_idempotent :
    (bDlg.get_updates.map (fun p : Option Str × Board => p.1.isSome)) = some true ∧
    (bDlg.get_updates.map
      (fun p : Option Str × Board => p.2.grid.has_updates)) = some true ∧
    ((bDlg.get_updates.bind (fun p : Option Str × Board => p.2.get_updates)).map
      (fun p : Option Str × Board => p.1.isSome)) = some true := by
  decide

/-- **C8 witness.** The amended theorem applied to the dirty board
`bDirty`: its repaint query returns output, after which the grid is clean
and the next query yields nothing. -/
theorem repaint_completion_idempotent_witness :
    bDirty.message_lines = none ∧
    ∃ out b', bDirty.get_updates = some (some out, b') ∧
      b'.grid.has_updates = false ∧ b'.update_all = false ∧
      b'.get_updates = some (none, b') := by
  refine ⟨rfl, ?_⟩
  rcases e : bDirty.get_updates with _ | ⟨out, b'⟩
  · exact absurd e (by decide)
  · rcases out with _ | s
    · have hsome : (bDirty.get_updates.map
          (fun p : Option Str × Board => p.1.isSome)) = some true := by decide
      rw [e] at hsome
      simp at hsome
    · exact ⟨s, b', rfl, repaint_completion_idempotent bDirty s b' rfl e⟩

/-- Under a raised board flag, the cell-output selection is one of the two
full-repaint scans. -/
theorem cellsOut_of_update_all (b : Board) (hflag : b.update_all = true) :
    b.cellsOut =
      if b.cell_width = 1 ∧ b.cell_height = 1 ∧ b.cell_borders = false
      then b.optimizedCellsOut else b.generalCellsOut := by
  simp [Board.cellsOut, hflag]

/-- **C1 (amended).** Whenever the structural-invalidation flag is set —
it is raised whenever the dialog is hidden, but NOT on first
initialization, where only the grid's own update-all flag is raised and
the border is not emitted — the next repaint query (with no dialog shown)
emits the board border followed by every cell's formatted content (the
optimized or the general full scan), clears the flag, and the following
query with no intervening mutation emits nothing. -/
theorem structural_invalidation_full_repaint (b : Board) (out : Option Str)
    (b' : Board) (hmsg : b.message_lines = none) (hflag : b.update_all = true)
    (h : b.get_updates = some (out, b')) :
    (∃ cells,
      (if b.cell_width = 1 ∧ b.cell_height = 1 ∧ b.cell_borders = false
       then b.optimizedCellsOut else b.generalCellsOut) = some cells ∧
      out = some (b.get_border ++ cells)) ∧
    b'.update_all = false ∧ b'.grid.has_updates = false ∧
    b'.get_updates = some (none, b') := by
  unfold Board.get_updates at h
  rw [get_message_dialog_none b hmsg] at h
  rcases hcells : b.cellsOut with _ | cells
  · simp [hflag, hcells] at h
  · simp [hflag, hcells] at h
    obtain ⟨hout, hb'⟩ := h
    subst hb'
    rw [cellsOut_of_update_all b hflag] at hcells
    exact ⟨⟨cells, hcells, hout.symm⟩, rfl, rfl,
      get_updates_clean _ hmsg rfl rfl⟩

/-- **C1 counterexample.** The structural-invalidation flag is not raised
on first initialization: on the freshly initialized board `bInit` the flag
is clear, and the first repaint query (driven by the grid's own update-all
flag) emits an output that does not begin with the board border — so the
border is not emitted, contrary to the claim's parenthetical. -/
theorem init_no_structural_invalidation :
    bInit.update_all = false ∧
    (bInit.get_updates.map
      (fun p : Option Str × Board =>
        p.1.map (fun o => bInit.get_border.isPrefixOf o))) =
      some (some false) := by
  decide

/-- **C1 witness.** The amended theorem applied to `bHidden` (dialog just
hidden, flag raised): the repaint emits the border plus all cells, clears
the flag, and the following query emits nothing. -/
theorem structural_invalidation_full_repaint_witness :
    bHidden.message_lines = none ∧ bHidden.update_all = true ∧
    ∃ out b', bHidden.get_updates = some (out, b') ∧
      (∃ cells,
        (if bHidden.cell_width = 1 ∧ bHidden.cell_height = 1 ∧
            bHidden.cell_borders = false
         then bHidden.optimizedCellsOut else bHidden.generalCellsOut) =
          some cells ∧
        out = some (bHidden.get_border ++ cells)) ∧
      b'.update_all = false ∧ b'.grid.has_updates = false ∧
      b'.get_updates = some (none, b') := by
  refine ⟨rfl, rfl, ?_⟩
  rcases e : bHidden.get_updates with _ | ⟨out, b'⟩
  · exact absurd e (by decide)
  · exact ⟨out, b', rfl,
      structural_invalidation_full_repaint bHidden out b' rfl rfl e⟩

/-! ## C2: the optimized 1×1 scan against the general full-repaint scan -/

/-- A styled single-character payload formats in a 1×1 rectangle as the
positioning directive, the whole payload verbatim, and the reset. -/
theorem prepare_str_single (cs : Clusters) (hs : SingleGrapheme cs) (x y : Nat) :
    prepare_str cs 1 1 x y = gotoSeq x y ++ cs.flatten ++ resetSeq := by
  obtain ⟨pre, g, rfl, hrun, hg, hghead⟩ := hs
  unfold prepare_str
  rw [prepareStrLoop_esc 1 x pre false false hrun [g] [] 0 y 1 (gotoSeq x y),
    prepareStrLoop_cons, if_neg hghead,
    if_neg (by simp : ¬(false = true ∧ List.head? g = some 'm')),
    if_neg (by simp : ¬(false = true)), if_pos rfl]
  simp [List.append_assoc]

/-- In a 1×1 cell, the general path's formatted content is exactly a
positioning directive followed by the cell's bare value. -/
theorem get_content_1x1 (rt : Option ResourceTable) (cell : Cell) (x y : Nat)
    (hok : CellOk rt cell) (v : Str) (hv : add_value_to_str rt cell = some v) :
    get_content cell 1 1 x y rt = some (gotoSeq x y ++ v) := by
  cases cell with
  | Empty =>
      simp [add_value_to_str] at hv
      subst hv
      simp [get_content, prepare_str_from_char]
  | Char c =>
      simp [add_value_to_str] at hv
      subst hv
      simp [get_content, prepare_str_from_char]
  | Content s =>
      simp [add_value_to_str] at hv
      subst hv
      simp [get_content, prepare_str_single s hok, List.append_assoc]
  | ResourceId id =>
      obtain ⟨s, hls, hsingle⟩ := hok
      simp [add_value_to_str, hls] at hv
      subst hv
      simp [get_content, hls, prepare_str_single s hsingle, List.append_assoc]

/-- Specification-side rendering of the OPTIMIZED full scan: the bare cell
values in order, with one positioning directive at each row start. -/
def rowGotoRender (b : Board) : Nat → List Str → Str
  | _, [] => []
  | i, v :: vs =>
      (if i % b.columns = 0 then
         gotoSeq (b.get_cell_top_left i).1 (b.get_cell_top_left i).2 else []) ++
      v ++ rowGotoRender b (i + 1) vs

/-- Specification-side rendering of the GENERAL full scan on 1×1 cells: the
same bare cell values in the same order, each preceded by its own
positioning directive. -/
def cellGotoRender (b : Board) : Nat → List Str → Str
  | _, [] => []
  | i, v :: vs =>
      gotoSeq (b.get_cell_top_left i).1 (b.get_cell_top_left i).2 ++
      v ++ cellGotoRender b (i + 1) vs

/-- Both full-repaint scans, run over the same cells from the same index,
produce exactly the corresponding rendering of the same bare values. -/
theorem scans_with_values (b : Board) (hw : b.cell_width = 1)
    (hh : b.cell_height = 1) :
    ∀ (cells : List Cell) (vals : List Str) (i : Nat),
    (∀ c ∈ cells, CellOk b.resources c) →
    cells.mapM (add_value_to_str b.resources) = some vals →
    b.optimizedCellsFrom i cells = some (rowGotoRender b i vals) ∧
    b.generalCellsFrom i cells = some (cellGotoRender b i vals) := by
  intro cells
  induction cells with
  | nil =>
      intro vals i _ hm
      rw [List.mapM_nil] at hm
      simp at hm
      subst hm
      simp [Board.optimizedCellsFrom, Board.generalCellsFrom,
        rowGotoRender, cellGotoRender]
  | cons c cells ih =>
      intro vals i hok hm
      rw [List.mapM_cons] at hm
      rcases hv : add_value_to_str b.resources c with _ | v
      · rw [hv] at hm; simp at hm
      · rw [hv] at hm
        rcases hrest : cells.mapM (add_value_to_str b.resources) with _ | vs
        · rw [hrest] at hm; simp at hm
        · rw [hrest] at hm
          simp at hm
          subst hm
          obtain ⟨ho, hg⟩ := ih vs (i + 1)
            (fun c' hc' => hok c' (List.mem_cons_of_mem c hc')) hrest
          have hc1 := get_content_1x1 b.resources c (b.get_cell_top_left i).1
            (b.get_cell_top_left i).2 (hok c (List.mem_cons_self c cells)) v hv
          constructor
          · simp [Board.optimizedCellsFrom, hv, ho, rowGotoRender]
          · simp [Board.generalCellsFrom, hw, hh, hc1, hg, cellGotoRender,
              List.append_assoc]

/-- **C2 (amended).** For a grid state of 1×1 cells with inter-cell borders
disabled, where every `Content`/`ResourceId` payload is a styled single
character, the optimized linear scan and the general per-cell full-repaint
path emit the same per-cell bare values in the same order; the outputs
differ only in positioning directives: the general path emits one before
every cell's value, the optimized path only at each row's first cell — so
they are display-equivalent but NOT byte-identical. -/
theorem optimized_general_same_payloads (b : Board) (vals : List Str)
    (hw : b.cell_width = 1) (hh : b.cell_height = 1)
    (_hb : b.cell_borders = false)
    (hok : ∀ c ∈ b.grid.cells, CellOk b.resources c)
    (hm : b.grid.cells.mapM (add_value_to_str b.resources) = some vals) :
    b.optimizedCellsOut = some (rowGotoRender b 0 vals) ∧
    b.generalCellsOut = some (cellGotoRender b 0 vals) :=
  scans_with_values b hw hh b.grid.cells vals 0 hok hm

/-- A 2-column, 1-row board of 1×1 borderless cells holding `a`, `b`. -/
def bC2 : Board :=
  (Board.init_from_vec (Board.new 2 1 1 1 false none)
    [Cell.Char 'a', Cell.Char 'b'] none).getD (Board.new 2 1 1 1 false none)

/-- **C2 counterexample.** On `bC2` (a full-repaint grid state with 1×1
cells, no borders) the optimized linear scan's output is not byte-identical
to the general per-cell path's output: the optimized scan emits one
positioning directive for the whole row, the general path one per cell. -/
theorem optimized_not_byte_identical :
    bC2.optimizedCellsOut ≠ bC2.generalCellsOut := by decide

/-- **C2 witness.** The amended theorem applied to `bC2`. -/
theorem optimized_general_same_payloads_witness :
    bC2.optimizedCellsOut = some (rowGotoRender bC2 0 [['a'], ['b']]) ∧
    bC2.generalCellsOut = some (cellGotoRender bC2 0 [['a'], ['b']]) := by
  have hcells : bC2.grid.cells = [Cell.Char 'a', Cell.Char 'b'] := by decide
  refine optimized_general_same_payloads bC2 [['a'], ['b']] rfl rfl rfl
    ?_ (by decide)
  intro c hc
  rw [hcells] at hc
  simp at hc
  rcases hc with rfl | rfl <;> trivial

/-! ## C3: the cursor overlay invariant -/

/-- The cursor–grid subsystem: the attached cursor together with the grid
(`Board::handle_key` dispatch and `Board::update_cells` with no dialog
shown operate on exactly this pair). -/
structure CursorSys where
  cursor : Cursor
  grid : CellGrid
deriving DecidableEq

/-- External events after the cursor is attached: a resolved cursor-move
direction, or an external batch of targeted cell updates. -/
inductive CursorOp where
  | move (d : Direction) : CursorOp
  | batch (updates : List (Cell × Position)) : CursorOp

/-- One subsystem step: a cursor move (`Cursor::handle_key` with the key
already resolved to a direction), or `Board::update_cells` with no dialog
shown (grid batch write, then `Cursor::check_updates`). -/
def CursorSys.step (s : CursorSys) : CursorOp → Option CursorSys
  | CursorOp.move d => do
      let (cur', grid', _) ← s.cursor.handle_direction d s.grid
      some ⟨cur', grid'⟩
  | CursorOp.batch us => do
      let grid' ← s.grid.update_cells us
      let (cur', grid'') ← s.cursor.check_updates us grid'
      some ⟨cur', grid''⟩

/-- Run a sequence of subsystem events. -/
def CursorSys.run (s : CursorSys) : List CursorOp → Option CursorSys
  | [] => some s
  | op :: ops => do
      let s' ← s.step op
      s'.run ops

/-- The write performed for one targeted update (loop body of
`CellGrid::update_cells`): set the cell at the flat index. -/
def writeCell (cols : Nat) (cs : List Cell) (u : Cell × Position) : List Cell :=
  cs.set (u.2.y * cols + u.2.x) u.1

/-- The non-highlighted baseline after one event: external batches write
their values, cursor moves write nothing. -/
def baseStep (cols : Nat) (cells : List Cell) : CursorOp → List Cell
  | CursorOp.move _ => cells
  | CursorOp.batch us => us.foldl (writeCell cols) cells

/-- The non-highlighted baseline after a sequence of events. -/
def baseRun (cols : Nat) (cells : List Cell) : List CursorOp → List Cell
  | [] => cells
  | op :: ops => baseRun cols (baseStep cols cells op) ops

/-- Validity of an event: batches only target in-range positions
(out-of-range positions alias other rows or abort, see the flat-index
theorem). -/
def ValidOp (rows cols : Nat) : CursorOp → Prop
  | CursorOp.move _ => True
  | CursorOp.batch us => ∀ u ∈ us, u.2.x < cols ∧ u.2.y < rows

/-- Flat row-major index of a position. -/
def flatPos (cols : Nat) (p : Position) : Nat := p.y * cols + p.x

/-- The cursor–grid consistency invariant: the grid equals the
non-highlighted baseline everywhere except at the cursor's (in-range)
position, which holds the highlighted variant of the baseline value there;
that baseline value is the cursor's remembered original. -/
def CursorInv (rows cols : Nat) (base : List Cell) (s : CursorSys) : Prop :=
  s.grid.rows = rows ∧ s.grid.columns = cols ∧
  s.cursor.rows = rows ∧ s.cursor.columns = cols ∧
  s.grid.cells.length = base.length ∧ base.length = cols * rows ∧
  s.cursor.position.x < cols ∧ s.cursor.position.y < rows ∧
  (∀ j, j ≠ flatPos cols s.cursor.position → s.grid.cells[j]? = base[j]?) ∧
  base[flatPos cols s.cursor.position]? = some s.cursor.original_cell ∧
  ∃ hl, with_bg_color s.cursor.original_cell s.grid.cell_width
      s.grid.cell_height s.grid.resources s.cursor.background = some hl ∧
    s.grid.cells[flatPos cols s.cursor.position]? = some hl

theorem flat_lt (x y c r : Nat) (hx : x < c) (hy : y < r) :
    y * c + x < c * r := by
  have h1 : y * c + x < (y + 1) * c := by rw [Nat.succ_mul]; omega
  have h2 : (y + 1) * c ≤ r * c := Nat.mul_le_mul_right c hy
  calc y * c + x < (y + 1) * c := h1
    _ ≤ r * c := h2
    _ = c * r := Nat.mul_comm r c

theorem flat_inj (x1 y1 x2 y2 c : Nat) (h1 : x1 < c) (h2 : x2 < c)
    (he : y1 * c + x1 = y2 * c + x2) : x1 = x2 ∧ y1 = y2 := by
  rw [Nat.mul_comm y1 c, Nat.mul_comm y2 c] at he
  have hx : x1 = x2 := by
    have hm := congrArg (fun t => t % c) he
    simpa [Nat.mul_add_mod, Nat.mod_eq_of_lt h1, Nat.mod_eq_of_lt h2] using hm
  refine ⟨hx, ?_⟩
  subst hx
  have hc : 0 < c := Nat.lt_of_le_of_lt (Nat.zero_le x1) h1
  have := Nat.add_right_cancel he
  exact Nat.eq_of_mul_eq_mul_left hc this

/-- The highlighted variant of a cell is never the cell itself (it always
becomes a `Content` cell prefixed with the nonempty background directive). -/
theorem with_bg_color_ne (cell : Cell) (w h : Nat) (rt : Option ResourceTable)
    (bg : Rgb) (hl : Cell) (hh : with_bg_color cell w h rt bg = some hl) :
    hl ≠ cell := by
  cases cell with
  | Empty =>
      simp [with_bg_color] at hh
      subst hh
      simp
  | Char c =>
      simp [with_bg_color] at hh
      subst hh
      simp
  | ResourceId id =>
      rcases hr : rtLookup rt id with _ | s
      · simp [with_bg_color, hr] at hh
      · simp [with_bg_color, hr] at hh
        subst hh
        simp
  | Content s =>
      simp [with_bg_color] at hh
      subst hh
      intro he
      have hinj : strClusters (bgSeq bg) ++ s = s := by
        injection he
      have hlen := congrArg List.length hinj
      simp [strClusters, bgSeq] at hlen
      omega

/-- Characterization of a successful `CellGrid::update_cell`. -/
theorem update_cell_some (g : CellGrid) (cell : Cell) (pos : Position)
    (g' : CellGrid) (h : g.update_cell cell pos = some g') :
    g' = { g with cells := g.cells.set (g.get_cell_pos pos) cell,
                  updates := insertUpdate (g.get_cell_pos pos) g.updates } ∧
    g.get_cell_pos pos < g.cells.length := by
  unfold CellGrid.update_cell at h
  dsimp only at h
  split at h
  · exact ⟨(Option.some.inj h).symm, by assumption⟩
  · exact absurd h (by simp)

/-- Characterization of a successful `CellGrid::update_cell_bg_color`. -/
theorem update_cell_bg_color_some (g : CellGrid) (pos : Position) (bg : Rgb)
    (orig : Cell) (g' : CellGrid)
    (h : g.update_cell_bg_color pos bg = some (orig, g')) :
    g.cells[g.get_cell_pos pos]? = some orig ∧
    ∃ hl, with_bg_color orig g.cell_width g.cell_height g.resources bg = some hl ∧
      g' = { g with cells := g.cells.set (g.get_cell_pos pos) hl,
                    updates := insertUpdate (g.get_cell_pos pos) g.updates } := by
  unfold CellGrid.update_cell_bg_color at h
  dsimp only at h
  rcases hg : g.cells.get? (g.get_cell_pos pos) with _ | orig'
  · rw [hg] at h
    simp at h
  · rw [hg] at h
    rcases hw : with_bg_color orig' g.cell_width g.cell_height g.resources bg
      with _ | hl
    · simp [hw] at h
    · simp [hw] at h
      obtain ⟨rfl, h2⟩ := h
      exact ⟨by simpa [← List.get?_eq_getElem?] using hg, hl, hw, h2.symm⟩

/-- Characterization of a successful `CellGrid::update_cells`: the cells
are the left fold of the individual writes, all other grid parameters are
preserved. -/
theorem update_cells_some :
    ∀ (us : List (Cell × Position)) (g g' : CellGrid),
    g.update_cells us = some g' →
    g'.cells = us.foldl (writeCell g.columns) g.cells ∧
    g'.columns = g.columns ∧ g'.rows = g.rows ∧
    g'.cell_width = g.cell_width ∧ g'.cell_height = g.cell_height ∧
    g'.resources = g.resources := by
  intro us
  induction us with
  | nil =>
      intro g g' h
      simp [CellGrid.update_cells] at h
      subst h
      simp
  | cons u us ih =>
      intro g g' h
      obtain ⟨uc, up⟩ := u
      rw [CellGrid.update_cells] at h
      split at h
      · obtain ⟨hc, h2, h3, h4, h5, h6⟩ := ih _ _ h
        refine ⟨?_, by simpa using h2, by simpa using h3,
          by simpa using h4, by simpa using h5, by simpa using h6⟩
        simpa [writeCell, CellGrid.get_cell_pos] using hc
      · exact absurd h (by simp)

theorem set_getElem?_congr (A B : List Cell) (hlen : A.length = B.length)
    (k : Nat) (v : Cell) (i : Nat) (h : A[i]? = B[i]?) :
    (A.set k v)[i]? = (B.set k v)[i]? := by
  rw [List.getElem?_set, List.getElem?_set, hlen, h]

theorem set_getElem?_written (A B : List Cell) (hlen : A.length = B.length)
    (k : Nat) (v : Cell) :
    (A.set k v)[k]? = (B.set k v)[k]? := by
  rw [List.getElem?_set, List.getElem?_set, hlen]
  simp

/-- Indices targeted by no write in the batch are unchanged. -/
theorem foldl_write_not_mem (cols : Nat) :
    ∀ (us : List (Cell × Position)) (cs : List Cell) (j : Nat),
    (∀ u ∈ us, u.2.y * cols + u.2.x ≠ j) →
    (us.foldl (writeCell cols) cs)[j]? = cs[j]? := by
  intro us
  induction us with
  | nil => intro cs j _; rfl
  | cons u us ih =>
      intro cs j hne
      simp only [List.foldl_cons]
      rw [ih _ j (fun v hv => hne v (List.mem_cons_of_mem u hv))]
      exact List.getElem?_set_ne (hne u (List.mem_cons_self u us))

theorem foldl_write_length (cols : Nat) :
    ∀ (us : List (Cell × Position)) (cs : List Cell),
    (us.foldl (writeCell cols) cs).length = cs.length := by
  intro us
  induction us with
  | nil => intro cs; rfl
  | cons u us ih => intro cs; simp [List.foldl_cons, ih, writeCell]

/-- Two cell arrays agreeing except at `j` still agree except at `j` after
the same batch of writes; they agree at `j` afterwards as soon as they did
before, or as soon as some write targets `j`. -/
theorem foldl_write_congr (cols j : Nat) :
    ∀ (us : List (Cell × Position)) (A B : List Cell),
    A.length = B.length → (∀ i, i ≠ j → A[i]? = B[i]?) →
    (∀ i, i ≠ j → (us.foldl (writeCell cols) A)[i]? =
        (us.foldl (writeCell cols) B)[i]?) ∧
    (A[j]? = B[j]? → (us.foldl (writeCell cols) A)[j]? =
        (us.foldl (writeCell cols) B)[j]?) ∧
    ((∃ u ∈ us, u.2.y * cols + u.2.x = j) →
        (us.foldl (writeCell cols) A)[j]? = (us.foldl (writeCell cols) B)[j]?) := by
  intro us
  induction us with
  | nil =>
      intro A B hlen hoff
      refine ⟨hoff, fun h => h, ?_⟩
      rintro ⟨u, hu, -⟩
      cases hu
  | cons u us ih =>
      intro A B hlen hoff
      simp only [List.foldl_cons]
      have hlen1 : (writeCell cols A u).length = (writeCell cols B u).length := by
        simp [writeCell, hlen]
      have hoff1 : ∀ i, i ≠ j → (writeCell cols A u)[i]? = (writeCell cols B u)[i]? :=
        fun i hi => set_getElem?_congr A B hlen _ _ i (hoff i hi)
      obtain ⟨ihoff, ihj, ihmem⟩ := ih (writeCell cols A u) (writeCell cols B u)
        hlen1 hoff1
      refine ⟨ihoff, ?_, ?_⟩
      · intro hj
        exact ihj (set_getElem?_congr A B hlen _ _ j hj)
      · rintro ⟨v, hv, hvj⟩
        rcases List.mem_cons.mp hv with rfl | hv'
        · refine ihj ?_
          simp only [writeCell]
          rw [← hvj]
          exact set_getElem?_written A B hlen _ v.1
        · exact ihmem ⟨v, hv', hvj⟩

/-- Valid distinct positions have distinct flat indices; in particular a
valid batch update that does not target the cursor's valid position never
writes its flat index. -/
theorem flat_ne_of_pos_ne (p q : Position) (cols : Nat)
    (hp : p.x < cols) (hq : q.x < cols)
    (hne : p ≠ q) : p.y * cols + p.x ≠ q.y * cols + q.x := by
  intro he
  obtain ⟨hx, hy⟩ := flat_inj p.x p.y q.x q.y cols hp hq he
  exact hne (by cases p; cases q; simp_all)

/-- Batch preservation: a valid external batch applied through
`Board::update_cells` (grid write then `Cursor::check_updates`) preserves
the cursor invariant against the baseline updated by the same writes. -/
theorem step_batch_inv (rows cols : Nat) (base : List Cell) (s s' : CursorSys)
    (us : List (Cell × Position)) (hinv : CursorInv rows cols base s)
    (hvalid : ∀ u ∈ us, u.2.x < cols ∧ u.2.y < rows)
    (hstep : s.step (CursorOp.batch us) = some s') :
    CursorInv rows cols (us.foldl (writeCell cols) base) s' := by
  obtain ⟨hgr, hgc, hcr, hcc, hlen, hblen, hpx, hpy, hoff, horig, hl, hwbg, hhl⟩ :=
    hinv
  replace hstep : Option.bind (s.grid.update_cells us)
      (fun g1 => Option.bind (s.cursor.check_updates us g1)
        (fun p => some (⟨p.1, p.2⟩ : CursorSys))) = some s' := hstep
  rcases hg1 : s.grid.update_cells us with _ | g1
  · rw [hg1] at hstep; simp at hstep
  · rw [hg1] at hstep
    rw [Option.some_bind] at hstep
    obtain ⟨hc1, hc2, hc3, hc4, hc5, hc6⟩ := update_cells_some us s.grid g1 hg1
    rw [hgc] at hc1
    have hg1len : g1.cells.length = base.length := by
      rw [hc1, foldl_write_length, hlen]
    have hcongr := foldl_write_congr cols (flatPos cols s.cursor.position) us
      s.grid.cells base hlen hoff
    unfold Cursor.check_updates at hstep
    by_cases hany : us.any (fun u => u.2 = s.cursor.position)
    · -- some update targets the cursor position: re-highlight
      rw [if_pos hany] at hstep
      rcases hbg : g1.update_cell_bg_color s.cursor.position s.cursor.background
        with _ | ⟨orig2, g2⟩
      · rw [hbg] at hstep; simp at hstep
      · rw [hbg] at hstep
        simp at hstep
        obtain ⟨horig2, hl2, hwbg2, hg2⟩ := update_cell_bg_color_some g1
          s.cursor.position s.cursor.background orig2 g2 hbg
        have hflat1 : g1.get_cell_pos s.cursor.position =
            flatPos cols s.cursor.position := by
          simp [CellGrid.get_cell_pos, flatPos, hc2, hgc]
        rw [hflat1] at horig2 hg2
        obtain ⟨uw, huw, huwj⟩ : ∃ u ∈ us, u.2 = s.cursor.position := by
          simpa using hany
        have hmem : ∃ u ∈ us, u.2.y * cols + u.2.x =
            flatPos cols s.cursor.position :=
          ⟨uw, huw, by rw [huwj]; rfl⟩
        have hbase' : (us.foldl (writeCell cols) base)[flatPos cols
            s.cursor.position]? = some orig2 := by
          rw [← hcongr.2.2 hmem, ← hc1]
          exact horig2
        subst hstep
        subst hg2
        refine ⟨by simpa [hc3] using hgr, by simpa [hc2] using hgc,
          hcr, hcc, ?_, by rw [foldl_write_length, hblen], hpx, hpy, ?_, ?_, ?_⟩
        · simp [List.length_set, hg1len, foldl_write_length]
        · intro j hj
          simp only
          rw [List.getElem?_set_ne (fun he => hj he.symm)]
          rw [hc1]
          exact hcongr.1 j hj
        · exact hbase'
        · refine ⟨hl2, ?_, ?_⟩
          · dsimp only
            exact hwbg2
          · simp only
            rw [List.getElem?_set_self', horig2]
            rfl
    · -- no update targets the cursor position
      rw [if_neg hany] at hstep
      simp at hstep
      have hnot : ∀ u ∈ us, u.2.y * cols + u.2.x ≠
          flatPos cols s.cursor.position := by
        intro u hu
        have hne : u.2 ≠ s.cursor.position := by
          intro he
          exact hany (List.any_eq_true.mpr ⟨u, hu, by simp [he]⟩)
        exact flat_ne_of_pos_ne u.2 s.cursor.position cols
          (hvalid u hu).1 hpx hne
      subst hstep
      refine ⟨by simpa [hc3] using hgr, by simpa [hc2] using hgc,
        hcr, hcc, ?_, by rw [foldl_write_length, hblen], hpx, hpy, ?_, ?_, ?_⟩
      · simp [hc1, foldl_write_length, hlen]
      · intro j hj
        rw [hc1]
        exact hcongr.1 j hj
      · rw [foldl_write_not_mem cols us base _ hnot]
        exact horig
      · refine ⟨hl, ?_, ?_⟩
        · dsimp only
          rw [hc4, hc5, hc6]
          exact hwbg
        · rw [hc1, foldl_write_not_mem cols us s.grid.cells _ hnot]
          exact hhl

/-- Move preservation: `Cursor::move_cursor` writes the remembered original
back to the old position — returning the grid to the baseline — and then
highlights the new (in-range) position, remembering its baseline value. -/
theorem move_cursor_inv (rows cols : Nat) (base : List Cell) (s : CursorSys)
    (new_pos : Position) (hinv : CursorInv rows cols base s)
    (hx : new_pos.x < cols) (hy : new_pos.y < rows)
    (cur' : Cursor) (grid' : CellGrid) (r : KeyHandleResult)
    (hmv : s.cursor.move_cursor new_pos s.grid = some (cur', grid', r)) :
    CursorInv rows cols base ⟨cur', grid'⟩ := by
  obtain ⟨hgr, hgc, hcr, hcc, hlen, hblen, hpx, hpy, hoff, horig, hlv, hwbg, hhl⟩ :=
    hinv
  replace hmv : Option.bind
      (s.grid.update_cell s.cursor.original_cell s.cursor.position)
      (fun g1 => Option.bind (g1.update_cell_bg_color new_pos s.cursor.background)
        (fun p => some ({ s.cursor with position := new_pos, original_cell := p.1 },
          p.2, KeyHandleResult.NewPosition new_pos))) = some (cur', grid', r) := hmv
  rcases hg1 : s.grid.update_cell s.cursor.original_cell s.cursor.position
    with _ | g1
  · rw [hg1] at hmv; simp at hmv
  · rw [hg1] at hmv
    rw [Option.some_bind] at hmv
    obtain ⟨hg1eq, hflt⟩ := update_cell_some s.grid s.cursor.original_cell
      s.cursor.position g1 hg1
    rcases hbg : g1.update_cell_bg_color new_pos s.cursor.background
      with _ | ⟨orig2, g2⟩
    · rw [hbg] at hmv; simp at hmv
    · rw [hbg] at hmv
      simp at hmv
      obtain ⟨hcur, hgrid, -⟩ := hmv
      obtain ⟨horig2, hl2, hwbg2, hg2⟩ := update_cell_bg_color_some g1 new_pos
        s.cursor.background orig2 g2 hbg
      have hflat : s.grid.get_cell_pos s.cursor.position =
          flatPos cols s.cursor.position := by
        simp [CellGrid.get_cell_pos, flatPos, hgc]
      have hg1cols : g1.columns = cols := by rw [hg1eq]; exact hgc
      have hcellsbase : g1.cells = base := by
        rw [hg1eq]
        dsimp only
        refine List.ext_getElem? ?_
        intro n
        by_cases hn : n = flatPos cols s.cursor.position
        · subst hn
          rw [hflat, List.getElem?_set_self', hhl]
          simpa using horig.symm
        · rw [hflat, List.getElem?_set_ne (fun he => hn he.symm)]
          exact hoff n hn
      have hnewflat : g1.get_cell_pos new_pos = flatPos cols new_pos := by
        simp [CellGrid.get_cell_pos, flatPos, hg1cols]
      rw [hnewflat, hcellsbase] at horig2
      rw [hnewflat, hcellsbase] at hg2
      have hrows1 : g1.rows = s.grid.rows := by rw [hg1eq]
      subst hcur
      subst hgrid
      subst hg2
      refine ⟨?_, ?_, hcr, hcc, ?_, hblen, hx, hy, ?_, horig2, ?_⟩
      · dsimp only
        rw [hrows1]
        exact hgr
      · dsimp only
        exact hg1cols
      · simp [List.length_set]
      · intro j hj
        dsimp only
        exact List.getElem?_set_ne (fun he => hj he.symm)
      · refine ⟨hl2, ?_, ?_⟩
        · dsimp only
          exact hwbg2
        · dsimp only
          rw [List.getElem?_set_self', horig2]
          rfl

/-- A consumed (edge, non-wrapping) move leaves the subsystem unchanged. -/
theorem consumed_inv (rows cols : Nat) (base : List Cell) (s s' : CursorSys)
    (h : (⟨s.cursor, s.grid⟩ : CursorSys) = s')
    (hinv : CursorInv rows cols base s) : CursorInv rows cols base s' := by
  subst h
  exact hinv

theorem step_left_inv (rows cols : Nat) (base : List Cell) (s s' : CursorSys)
    (hinv : CursorInv rows cols base s)
    (hstep : s.step (CursorOp.move Direction.Left) = some s') :
    CursorInv rows cols base s' := by
  replace hstep : Option.bind (s.cursor.left s.grid)
      (fun p => some (⟨p.1, p.2.1⟩ : CursorSys)) = some s' := hstep
  unfold Cursor.left at hstep
  obtain ⟨-, -, -, hcc, -, -, hpx, hpy, -⟩ := id hinv
  by_cases h1 : s.cursor.position.x = 0 ∧ ¬s.cursor.wrap_around
  · rw [if_pos h1, Option.some_bind] at hstep
    simp at hstep
    exact consumed_inv rows cols base s s' hstep hinv
  · rw [if_neg h1] at hstep
    by_cases h2 : s.cursor.position.x = 0 ∧ s.cursor.wrap_around
    · rw [if_pos h2] at hstep
      rcases hmv : s.cursor.move_cursor
          ⟨s.cursor.columns - 1, s.cursor.position.y⟩ s.grid with _ | ⟨c2, g2, r2⟩
      · rw [hmv] at hstep; simp at hstep
      · rw [hmv, Option.some_bind] at hstep
        simp at hstep
        subst hstep
        exact move_cursor_inv rows cols base s
          ⟨s.cursor.columns - 1, s.cursor.position.y⟩ hinv
          (show s.cursor.columns - 1 < cols by omega) hpy c2 g2 r2 hmv
    · rw [if_neg h2] at hstep
      rcases hmv : s.cursor.move_cursor
          ⟨s.cursor.position.x - 1, s.cursor.position.y⟩ s.grid with _ | ⟨c2, g2, r2⟩
      · rw [hmv] at hstep; simp at hstep
      · rw [hmv, Option.some_bind] at hstep
        simp at hstep
        subst hstep
        exact move_cursor_inv rows cols base s
          ⟨s.cursor.position.x - 1, s.cursor.position.y⟩ hinv
          (show s.cursor.position.x - 1 < cols by omega) hpy c2 g2 r2 hmv

theorem step_right_inv (rows cols : Nat) (base : List Cell) (s s' : CursorSys)
    (hinv : CursorInv rows cols base s)
    (hstep : s.step (CursorOp.move Direction.Right) = some s') :
    CursorInv rows cols base s' := by
  replace hstep : Option.bind (s.cursor.right s.grid)
      (fun p => some (⟨p.1, p.2.1⟩ : CursorSys)) = some s' := hstep
  unfold Cursor.right at hstep
  obtain ⟨-, -, -, hcc, -, -, hpx, hpy, -⟩ := id hinv
  by_cases h1 : s.cursor.position.x = s.cursor.columns - 1 ∧ ¬s.cursor.wrap_around
  · rw [if_pos h1, Option.some_bind] at hstep
    simp at hstep
    exact consumed_inv rows cols base s s' hstep hinv
  · rw [if_neg h1] at hstep
    by_cases h2 : s.cursor.position.x = s.cursor.columns - 1 ∧ s.cursor.wrap_around
    · rw [if_pos h2] at hstep
      rcases hmv : s.cursor.move_cursor ⟨0, s.cursor.position.y⟩ s.grid
        with _ | ⟨c2, g2, r2⟩
      · rw [hmv] at hstep; simp at hstep
      · rw [hmv, Option.some_bind] at hstep
        simp at hstep
        subst hstep
        exact move_cursor_inv rows cols base s ⟨0, s.cursor.position.y⟩ hinv
          (show 0 < cols by omega) hpy c2 g2 r2 hmv
    · rw [if_neg h2] at hstep
      rcases hmv : s.cursor.move_cursor
          ⟨s.cursor.position.x + 1, s.cursor.position.y⟩ s.grid with _ | ⟨c2, g2, r2⟩
      · rw [hmv] at hstep; simp at hstep
      · rw [hmv, Option.some_bind] at hstep
        simp at hstep
        subst hstep
        have hxx : s.cursor.position.x + 1 < cols := by
          rcases Decidable.em (s.cursor.wrap_around = true) with hw | hw
          · have hne : ¬s.cursor.position.x = s.cursor.columns - 1 :=
              fun hc => h2 ⟨hc, hw⟩
            omega
          · have hne : ¬s.cursor.position.x = s.cursor.columns - 1 :=
              fun hc => h1 ⟨hc, by simpa using hw⟩
            omega
        exact move_cursor_inv rows cols base s
          ⟨s.cursor.position.x + 1, s.cursor.position.y⟩ hinv
          hxx hpy c2 g2 r2 hmv

theorem step_up_inv (rows cols : Nat) (base : List Cell) (s s' : CursorSys)
    (hinv : CursorInv rows cols base s)
    (hstep : s.step (CursorOp.move Direction.Up) = some s') :
    CursorInv rows cols base s' := by
  replace hstep : Option.bind (s.cursor.up s.grid)
      (fun p => some (⟨p.1, p.2.1⟩ : CursorSys)) = some s' := hstep
  unfold Cursor.up at hstep
  obtain ⟨-, -, hcr, -, -, -, hpx, hpy, -⟩ := id hinv
  by_cases h1 : s.cursor.position.y = 0 ∧ ¬s.cursor.wrap_around
  · rw [if_pos h1, Option.some_bind] at hstep
    simp at hstep
    exact consumed_inv rows cols base s s' hstep hinv
  · rw [if_neg h1] at hstep
    by_cases h2 : s.cursor.position.y = 0 ∧ s.cursor.wrap_around
    · rw [if_pos h2] at hstep
      rcases hmv : s.cursor.move_cursor
          ⟨s.cursor.position.x, s.cursor.rows - 1⟩ s.grid with _ | ⟨c2, g2, r2⟩
      · rw [hmv] at hstep; simp at hstep
      · rw [hmv, Option.some_bind] at hstep
        simp at hstep
        subst hstep
        exact move_cursor_inv rows cols base s
          ⟨s.cursor.position.x, s.cursor.rows - 1⟩ hinv hpx
          (show s.cursor.rows - 1 < rows by omega) c2 g2 r2 hmv
    · rw [if_neg h2] at hstep
      rcases hmv : s.cursor.move_cursor
          ⟨s.cursor.position.x, s.cursor.position.y - 1⟩ s.grid with _ | ⟨c2, g2, r2⟩
      · rw [hmv] at hstep; simp at hstep
      · rw [hmv, Option.some_bind] at hstep
        simp at hstep
        subst hstep
        exact move_cursor_inv rows cols base s
          ⟨s.cursor.position.x, s.cursor.position.y - 1⟩ hinv hpx
          (show s.cursor.position.y - 1 < rows by omega) c2 g2 r2 hmv

theorem step_down_inv (rows cols : Nat) (base : List Cell) (s s' : CursorSys)
    (hinv : CursorInv rows cols base s)
    (hstep : s.step (CursorOp.move Direction.Down) = some s') :
    CursorInv rows cols base s' := by
  replace hstep : Option.bind (s.cursor.down s.grid)
      (fun p => some (⟨p.1, p.2.1⟩ : CursorSys)) = some s' := hstep
  unfold Cursor.down at hstep
  obtain ⟨-, -, hcr, -, -, -, hpx, hpy, -⟩ := id hinv
  by_cases h1 : s.cursor.position.y = s.cursor.rows - 1 ∧ ¬s.cursor.wrap_around
  · rw [if_pos h1, Option.some_bind] at hstep
    simp at hstep
    exact consumed_inv rows cols base s s' hstep hinv
  · rw [if_neg h1] at hstep
    by_cases h2 : s.cursor.position.y = s.cursor.rows - 1 ∧ s.cursor.wrap_around
    · rw [if_pos h2] at hstep
      rcases hmv : s.cursor.move_cursor ⟨s.cursor.position.x, 0⟩ s.grid
        with _ | ⟨c2, g2, r2⟩
      · rw [hmv] at hstep; simp at hstep
      · rw [hmv, Option.some_bind] at hstep
        simp at hstep
        subst hstep
        exact move_cursor_inv rows cols base s ⟨s.cursor.position.x, 0⟩ hinv hpx
          (show 0 < rows by omega) c2 g2 r2 hmv
    · rw [if_neg h2] at hstep
      rcases hmv : s.cursor.move_cursor
          ⟨s.cursor.position.x, s.cursor.position.y + 1⟩ s.grid with _ | ⟨c2, g2, r2⟩
      · rw [hmv] at hstep; simp at hstep
      · rw [hmv, Option.some_bind] at hstep
        simp at hstep
        subst hstep
        have hyy : s.cursor.position.y + 1 < rows := by
          rcases Decidable.em (s.cursor.wrap_around = true) with hw | hw
          · have hne : ¬s.cursor.position.y = s.cursor.rows - 1 :=
              fun hc => h2 ⟨hc, hw⟩
            omega
          · have hne : ¬s.cursor.position.y = s.cursor.rows - 1 :=
              fun hc => h1 ⟨hc, by simpa using hw⟩
            omega
        exact move_cursor_inv rows cols base s
          ⟨s.cursor.position.x, s.cursor.position.y + 1⟩ hinv hpx hyy c2 g2 r2 hmv

/-- One-step preservation of the cursor invariant. -/
theorem step_inv (rows cols : Nat) (base : List Cell) (s s' : CursorSys)
    (op : CursorOp) (hinv : CursorInv rows cols base s)
    (hv : ValidOp rows cols op) (hstep : s.step op = some s') :
    CursorInv rows cols (baseStep cols base op) s' := by
  cases op with
  | batch us => exact step_batch_inv rows cols base s s' us hinv hv hstep
  | move d =>
      cases d with
      | Left => exact step_left_inv rows cols base s s' hinv hstep
      | Right => exact step_right_inv rows cols base s s' hinv hstep
      | Up => exact step_up_inv rows cols base s s' hinv hstep
      | Down => exact step_down_inv rows cols base s s' hinv hstep

/-- Run preservation of the cursor invariant. -/
theorem run_inv (rows cols : Nat) :
    ∀ (ops : List CursorOp) (base : List Cell) (s s' : CursorSys),
    CursorInv rows cols base s → (∀ op ∈ ops, ValidOp rows cols op) →
    s.run ops = some s' →
    CursorInv rows cols (baseRun cols base ops) s' := by
  intro ops
  induction ops with
  | nil =>
      intro base s s' hinv _ hrun
      simp [CursorSys.run] at hrun
      subst hrun
      exact hinv
  | cons op ops ih =>
      intro base s s' hinv hv hrun
      replace hrun : Option.bind (s.step op) (fun s1 => s1.run ops) = some s' := hrun
      rcases hs1 : s.step op with _ | s1
      · rw [hs1] at hrun; simp at hrun
      · rw [hs1, Option.some_bind] at hrun
        exact ih (baseStep cols base op) s1 s'
          (step_inv rows cols base s s1 op hinv (hv op (List.mem_cons_self op ops)) hs1)
          (fun o ho => hv o (List.mem_cons_of_mem op ho)) hrun

/-- **C3.** After the cursor is attached (remembering the pre-highlight
value at its start position) and any sequence of cursor moves and valid
external batches of targeted cell updates is applied, exactly one grid
position holds highlighted content: the grid agrees with the
non-highlighted baseline (initialization plus the external batch writes)
everywhere except at the cursor's current position, where it differs; and
the cursor's remembered original at that position equals the baseline value
there — the last non-highlighted value written by initialization, move
restoration or an external batch update. -/
theorem cursor_exactly_one_highlight (rows cols : Nat) (grid0 : CellGrid)
    (cur0 : Cursor) (c1 : Cursor) (g1 : CellGrid) (ops : List CursorOp)
    (s' : CursorSys)
    (hgr : grid0.rows = rows) (hgc : grid0.columns = cols)
    (hlen : grid0.cells.length = cols * rows)
    (hx : cur0.position.x < cols) (hy : cur0.position.y < rows)
    (hinit : cur0.init rows cols grid0 = some (c1, g1))
    (hvalid : ∀ op ∈ ops, ValidOp rows cols op)
    (hrun : CursorSys.run ⟨c1, g1⟩ ops = some s') :
    (∀ j, j ≠ flatPos cols s'.cursor.position →
        s'.grid.cells[j]? = (baseRun cols grid0.cells ops)[j]?) ∧
    s'.grid.cells[flatPos cols s'.cursor.position]? ≠
      (baseRun cols grid0.cells ops)[flatPos cols s'.cursor.position]? ∧
    (baseRun cols grid0.cells ops)[flatPos cols s'.cursor.position]? =
      some s'.cursor.original_cell := by
  have hinv0 : CursorInv rows cols grid0.cells ⟨c1, g1⟩ := by
    replace hinit : Option.bind
        (grid0.update_cell_bg_color cur0.position cur0.background)
        (fun p => some ({ cur0 with rows := rows, columns := cols, original_cell := p.1 }, p.2)) = some (c1, g1) := hinit
    rcases hbg : grid0.update_cell_bg_color cur0.position cur0.background
      with _ | ⟨orig0, gg⟩
    · rw [hbg] at hinit; simp at hinit
    · rw [hbg, Option.some_bind] at hinit
      simp at hinit
      obtain ⟨hc1, hg1⟩ := hinit
      obtain ⟨horig0, hl0, hwbg0, hgg⟩ := update_cell_bg_color_some grid0
        cur0.position cur0.background orig0 gg hbg
      have hflat : grid0.get_cell_pos cur0.position = flatPos cols cur0.position := by
        simp [CellGrid.get_cell_pos, flatPos, hgc]
      rw [hflat] at horig0 hgg
      subst hc1
      subst hg1
      subst hgg
      refine ⟨hgr, hgc, rfl, rfl, by simp [List.length_set], hlen, hx, hy, ?_,
        horig0, ⟨hl0, hwbg0, ?_⟩⟩
      · intro j hj
        dsimp only
        exact List.getElem?_set_ne (fun he => hj he.symm)
      · dsimp only
        rw [List.getElem?_set_self', horig0]
        rfl
  have hinv := run_inv rows cols ops grid0.cells ⟨c1, g1⟩ s' hinv0 hvalid hrun
  obtain ⟨-, -, -, -, -, -, -, -, hoff, horig, hl', hwbg', hhl'⟩ := hinv
  refine ⟨hoff, ?_, horig⟩
  rw [hhl', horig]
  intro he
  exact with_bg_color_ne _ _ _ _ _ _ hwbg' (Option.some.inj he)

/-- Concrete cursor-attachment data for the invariant witness. -/
def grid0W : CellGrid := CellGrid.new 2 2 1 1 none

/-- The witness cursor: blue background, start at (0, 0), wraparound on. -/
def cur0W : Cursor := Cursor.new ⟨0, 0, 200⟩ ⟨0, 0⟩ true

/-- The witness attachment result. -/
def initW : Option (Cursor × CellGrid) := cur0W.init 2 2 grid0W

/-- The attached cursor of the witness run. -/
def c1W : Cursor := (initW.getD (cur0W, grid0W)).1

/-- The attached grid of the witness run. -/
def g1W : CellGrid := (initW.getD (cur0W, grid0W)).2

/-- The witness event sequence: one move right, then an external batch
update at the cursor's old position. -/
def opsW : List CursorOp :=
  [CursorOp.move Direction.Right, CursorOp.batch [(Cell.Char 'k', ⟨0, 0⟩)]]

/-- **C3 witness.** The invariant theorem applied to a concrete 2×2 run. -/
theorem cursor_exactly_one_highlight_witness :
    ∃ s', CursorSys.run ⟨c1W, g1W⟩ opsW = some s' ∧
      ((∀ j, j ≠ flatPos 2 s'.cursor.position →
          s'.grid.cells[j]? = (baseRun 2 grid0W.cells opsW)[j]?) ∧
       s'.grid.cells[flatPos 2 s'.cursor.position]? ≠
         (baseRun 2 grid0W.cells opsW)[flatPos 2 s'.cursor.position]? ∧
       (baseRun 2 grid0W.cells opsW)[flatPos 2 s'.cursor.position]? =
         some s'.cursor.original_cell) := by
  rcases e : CursorSys.run ⟨c1W, g1W⟩ opsW with _ | s'
  · exact absurd e (by decide)
  · refine ⟨s', rfl, ?_⟩
    refine cursor_exactly_one_highlight 2 2 grid0W cur0W c1W g1W opsW s'
      rfl rfl (by decide) (by decide) (by decide) (by decide) ?_ e
    intro op hop
    rcases List.mem_cons.mp hop with rfl | hop'
    · trivial
    · rcases List.mem_cons.mp hop' with rfl | hop''
      · intro u hu
        rcases List.mem_cons.mp hu with rfl | hu'
        · exact ⟨by decide, by decide⟩
        · cases hu'
      · cases hop''

end Gameboard
